import Mathlib

/-!
Verification development for the `teccondense` interstitial-condensation engine
(`condensation/core.py`).  The numeric kernel is embedded over `ℚ`: Python
floats become exact rationals, float `inf` produced by `u_value` becomes
`Option.none`, and Python exceptions in the optional-table path become
`Except`.  The saturation-pressure service (`p_max` / the tabulated `θs`
lookup) is an external provider in the source (a normative table with an
analytic Magnus fallback), so the profile functions are parametrised by the
provider `pmax : ℚ → ℚ` (and the surface-risk check by a threshold provider);
the concrete fallback formula itself is embedded separately as `p_max` /
`dew_point` with the transcendental `exp` / `log` abstracted as a function
argument.
-/

namespace Teccondense

/-- Merging / vertex tolerance, `1e-12` in the source. -/
def tol : ℚ := 1e-12

/-- Vapor permeability of still air, `DELTA_AIR_KG_M_H_PA = 1.86e-7` in the source. -/
def DELTA_AIR : ℚ := 1.86e-7

/-- Layer record mirroring `condensation.dataclasses.Layer`. -/
structure Layer where
  name : String := ""
  d : ℚ
  lambda_ : ℚ
  mu : ℚ
  rho : ℚ
  xr_percent : ℚ := 0
  xmax_percent : ℚ := 0

/-- Assembly record mirroring `condensation.dataclasses.Assembly`. -/
structure Assembly where
  layers : List Layer
  Rsi : ℚ
  Rse : ℚ

/-- Climate record mirroring `condensation.dataclasses.Climate`. -/
structure Climate where
  theta_i : ℚ
  phi_i : ℚ
  theta_e : ℚ
  phi_e : ℚ

/-- Source `u_value`: `R_total = Rsi + Σ d/λ + Rse`; `U = 1/R_total` when
`R_total > 0`, else the float `inf`, which the embedding renders as `none`. -/
def u_value (A : Assembly) : Option ℚ × ℚ :=
  let R_layers := (A.layers.map (fun l => l.d / l.lambda_)).sum
  let R_total := A.Rsi + R_layers + A.Rse
  (if 0 < R_total then some (1 / R_total) else none, R_total)

/-- Interface-temperature loop of `temperature_profile`: running resistance
`R_accum`, appending `θi − q·R_accum` after each layer. -/
def temp_accum (C : Climate) (q : ℚ) : ℚ → List Layer → List ℚ
  | _, [] => []
  | Racc, l :: ls =>
      let R := Racc + l.d / l.lambda_
      (C.theta_i - q * R) :: temp_accum C q R ls

/-- Source `temperature_profile`.  The source's degenerate test
`not isfinite(U) or R_total == 0` is equivalent to `R_total ≤ 0` (U is the
float `inf` exactly when `R_total ≤ 0`). -/
def temperature_profile (A : Assembly) (C : Climate) : List ℚ :=
  let R_total := (u_value A).2
  if R_total ≤ 0 then
    List.replicate (A.layers.length + 1) C.theta_i ++ [C.theta_e]
  else
    let U := 1 / R_total
    let q := U * (C.theta_i - C.theta_e)
    let theta_si := C.theta_i - q * A.Rsi
    let temps := theta_si :: temp_accum C q A.Rsi A.layers
    let theta_se := C.theta_e + q * A.Rse
    if A.layers.isEmpty then temps ++ [theta_se]
    else temps.dropLast ++ [theta_se]

/-- Accumulation loop of `z_profile`: running sum of `μ·d/δ_air`. -/
def z_accum : ℚ → List Layer → List ℚ
  | _, [] => []
  | accum, l :: ls =>
      let a := accum + l.mu * l.d / DELTA_AIR
      a :: z_accum a ls

/-- Source `z_profile`: vapor-resistance axis `z = Σ(μ·d/δ_air)`, starting at 0. -/
def z_profile (A : Assembly) : List ℚ := 0 :: z_accum 0 A.layers

/-- Source `_p_max_magnus_pa`, with `math.exp` abstracted as `expf`:
`6.112 · expf(17.625·T/(243.04+T))` hPa, converted to Pa. -/
def p_max_magnus_pa (expf : ℚ → ℚ) (T : ℚ) : ℚ :=
  let a : ℚ := 17.625
  let b : ℚ := 243.04
  let es_hPa := 6.112 * expf (a * T / (b + T))
  es_hPa * 100

/-- Source `p_max`: try the tabulated lookup first (which may be absent,
raise, or return no value), fall back to the Magnus formula.  The optional
table is `tbl`; a raised exception is `Except.error`, "no value" is
`Except.ok none`. -/
def p_max (tbl : Option (ℚ → Except Unit (Option ℚ))) (expf : ℚ → ℚ) (T : ℚ) : ℚ :=
  match tbl with
  | some f =>
      match f T with
      | Except.ok (some val) => val
      | Except.ok none => p_max_magnus_pa expf T
      | Except.error _ => p_max_magnus_pa expf T
  | none => p_max_magnus_pa expf T

/-- Source `dew_point`, with `math.log` abstracted as `logf`:
`φ ≤ 0` yields the sentinel `−273.15`; otherwise the inverse Magnus formula. -/
def dew_point (logf : ℚ → ℚ) (theta phi : ℚ) : ℚ :=
  if phi ≤ 0 then -273.15
  else
    let a : ℚ := 17.625
    let b : ℚ := 243.04
    let rh := phi / 100
    let alpha := logf rh + a * theta / (b + theta)
    b * alpha / (a - alpha)

/-- Source `partial_pressures`: `(p_i, p_e)` with `p = φ/100 · p_max(θ)`;
`pmax` is the saturation-pressure provider. -/
def partial_pressures (pmax : ℚ → ℚ) (C : Climate) : ℚ × ℚ :=
  (C.phi_i / 100 * pmax C.theta_i, C.phi_e / 100 * pmax C.theta_e)

/-- Source `vapor_pressure_profile`: linear `p(z)` along the vapor axis from
`p_i` to `p_e`; constant `p_i` when the total resistance is 0. -/
def vapor_pressure_profile (pmax : ℚ → ℚ) (A : Assembly) (C : Climate) :
    List ℚ × List ℚ :=
  let z_axis := z_profile A
  if z_axis.isEmpty then ([], [])
  else
    let pp := partial_pressures pmax C
    let p_i := pp.1
    let p_e := pp.2
    let z_total := z_axis.getLastD 0
    if z_total = 0 then (z_axis, z_axis.map (fun _ => p_i))
    else
      let g0 := (p_i - p_e) / z_total
      (z_axis, z_axis.map (fun z => p_i - g0 * z))

/-- Source `saturation_pressure_profile`: `p_sat` pointwise on the temperatures. -/
def saturation_pressure_profile (pmax : ℚ → ℚ) (temps : List ℚ) : List ℚ :=
  temps.map pmax

/-- Interpolation parameter of the zero crossing, `0` when the denominator
`d1 − d0` vanishes (source expression `0.0 if (d1 - d0) == 0 else (-d0)/(d1 - d0)`). -/
def interT (d0 d1 : ℚ) : ℚ := if d1 - d0 = 0 then 0 else (-d0) / (d1 - d0)

/-- Scanning part of the source's local `interp`: carries the previous node
`(z0, a0)` and stops at the first node `z1` with `zq ≤ z1`. -/
def interpScan (zq : ℚ) : ℚ → ℚ → List ℚ → List ℚ → ℚ
  | z0, a0, z1 :: ztl, a1 :: atl =>
      if zq ≤ z1 then
        let t := if z1 - z0 = 0 then 0 else (zq - z0) / (z1 - z0)
        a0 + t * (a1 - a0)
      else interpScan zq z1 a1 ztl atl
  | _, a0, _, _ => a0

/-- Source `glaser_profile`'s local `interp`: clamp at both ends, otherwise
linear interpolation inside the first bracketing segment. -/
def interp (zq : ℚ) (zs arr : List ℚ) : ℚ :=
  match zs, arr with
  | z0 :: ztl, a0 :: atl =>
      if zq ≤ z0 then a0
      else if (z0 :: ztl).getLastD 0 ≤ zq then (a0 :: atl).getLastD 0
      else interpScan zq z0 a0 ztl atl
  | _, _ => 0

/-- One step of `glaser_profile`'s interval-detection loop over a segment
`[z0, z1]` with endpoint differences `d0, d1`.  The accumulator is kept in
reverse order, so the source's `intervals[-1]` is the accumulator's head. -/
def stepI (acc : List (ℚ × ℚ)) (z0 z1 d0 d1 : ℚ) : List (ℚ × ℚ) :=
  if 0 < d0 ∧ 0 < d1 then
    match acc with
    | (a, b) :: tl => if |b - z0| < tol then (a, z1) :: tl else (z0, z1) :: (a, b) :: tl
    | [] => [(z0, z1)]
  else if d0 ≤ 0 ∧ 0 < d1 then
    (z0 + interT d0 d1 * (z1 - z0), z1) :: acc
  else if 0 < d0 ∧ d1 ≤ 0 then
    match acc with
    | (a, _) :: tl => (a, z0 + interT d0 d1 * (z1 - z0)) :: tl
    | [] => [(z0, z0 + interT d0 d1 * (z1 - z0))]
  else acc

/-- The interval-detection loop of `glaser_profile`: walk consecutive
`(z, diff)` pairs.  Result is reversed (source order) by the caller. -/
def buildIntervals : List (ℚ × ℚ) → List ℚ → List ℚ → List (ℚ × ℚ)
  | acc, z0 :: z1 :: zr, d0 :: d1 :: dr =>
      buildIntervals (stepI acc z0 z1 d0 d1) (z1 :: zr) (d1 :: dr)
  | acc, _, _ => acc

/-- The merge loop's entry normalisation, source `if a > b: a, b = b, a`. -/
def swapPair (ab : ℚ × ℚ) : ℚ × ℚ := if ab.2 < ab.1 then (ab.2, ab.1) else ab

/-- One step of `glaser_profile`'s merge loop (accumulator reversed, head is
the source's `merged[-1]`); intervals touching within `tol` are coalesced. -/
def stepM (acc : List (ℚ × ℚ)) (ab : ℚ × ℚ) : List (ℚ × ℚ) :=
  let s := swapPair ab
  match acc with
  | [] => [s]
  | (pa, pb) :: tl =>
      if s.1 ≤ pb + tol then (pa, max pb s.2) :: tl else s :: (pa, pb) :: tl

/-- Condensation zone as returned by `glaser_profile`
(`{start_z, end_z, g_before, g_after}`). -/
structure Zone where
  start_z : ℚ
  end_z : ℚ
  g_before : ℚ
  g_after : ℚ

/-- Result record of `glaser_profile`. -/
structure GlaserResult where
  z_axis : List ℚ
  p_sat : List ℚ
  p_linear : List ℚ
  z_final : List ℚ
  p_final : List ℚ
  zones : List Zone

/-- Loop state of `glaser_profile`'s reconstruction pass: accumulated final
vertices, finished zones, the zone whose `g_after` is still pending (the
source's `zones_out[-1]`), and the previous zone end with its pressure. -/
structure MidState where
  zf : List ℚ
  pf : List ℚ
  done : List Zone
  cur : Zone
  last_b : ℚ
  p_last_b : ℚ

/-- Reconstruction loop of `glaser_profile` over `merged[1:]`: for each zone
`(a, b)` compute the connecting slope `g_mid`, close the previous zone's
`g_after`, append the vertex at `a`, and open the zone `(a, b)`. -/
def glaserMid (isat : ℚ → ℚ) : List (ℚ × ℚ) → MidState → MidState
  | [], st => st
  | (a, b) :: rest, st =>
      let p_a := isat a
      let g_mid := (st.p_last_b - p_a) / max (a - st.last_b) tol
      glaserMid isat rest
        { zf := st.zf ++ [a], pf := st.pf ++ [p_a],
          done := st.done ++ [{ st.cur with g_after := g_mid }],
          cur := { start_z := a, end_z := b, g_before := g_mid, g_after := 0 },
          last_b := b, p_last_b := isat b }

/-- Interval-detection phase of `glaser_profile` (loop over consecutive
differences, then restore source order). -/
def detectIntervals (z_axis diff : List ℚ) : List (ℚ × ℚ) :=
  (buildIntervals [] z_axis diff).reverse

/-- Merge phase of `glaser_profile` (fold of the merge step, then restore
source order). -/
def mergeIntervals (L : List (ℚ × ℚ)) : List (ℚ × ℚ) :=
  (L.foldl stepM []).reverse

/-- Detection, merging and reconstruction core of `glaser_profile`, acting on
the axis, the linear pressure line and the saturation line; returns
`(z_final, p_final, zones)`. -/
def glaserCore (z_axis p_lin p_sat : List ℚ) : List ℚ × List ℚ × List Zone :=
  let diff := List.zipWith (fun a b => a - b) p_lin p_sat
  let merged := mergeIntervals (detectIntervals z_axis diff)
  match merged with
  | [] => (z_axis, p_lin, [])
  | (a0, b0) :: mrest =>
    let isat := fun z => interp z z_axis p_sat
    let z0h := z_axis.headD 0
    let p0h := p_lin.headD 0
    let p_a0 := isat a0
    let g_left := (p0h - p_a0) / max (a0 - z0h) tol
    let st0 : MidState :=
      { zf := if z0h + tol < a0 then [z0h, a0] else [z0h],
        pf := if z0h + tol < a0 then [p0h, p_a0] else [p0h],
        done := [],
        cur := { start_z := a0, end_z := b0, g_before := g_left, g_after := 0 },
        last_b := b0, p_last_b := isat b0 }
    let st := glaserMid isat mrest st0
    let z_total := z_axis.getLastD 0
    let p_e := p_lin.getLastD 0
    let g_right := (st.p_last_b - p_e) / max (z_total - st.last_b) tol
    let zones := st.done ++ [{ st.cur with g_after := g_right }]
    let zf2 := if st.zf.getLastD 0 < z_total - tol then st.zf ++ [z_total] else st.zf
    let pf2 := if st.zf.getLastD 0 < z_total - tol then st.pf ++ [p_e] else st.pf
    (zf2, pf2, zones)

/-- Source `glaser_profile`: detect and merge condensation intervals, then
reconstruct the final pressure polyline and the per-zone boundary fluxes. -/
def glaser_profile (pmax : ℚ → ℚ) (A : Assembly) (C : Climate) : GlaserResult :=
  let zp := vapor_pressure_profile pmax A C
  let z_axis := zp.1
  let p_lin := zp.2
  let temps := temperature_profile A C
  let p_sat := saturation_pressure_profile pmax temps
  if z_axis.isEmpty then
    { z_axis := [], p_sat := [], p_linear := [], z_final := [], p_final := [], zones := [] }
  else
    let core := glaserCore z_axis p_lin p_sat
    { z_axis := z_axis, p_sat := p_sat, p_linear := p_lin,
      z_final := core.1, p_final := core.2.1, zones := core.2.2 }

/-- Per-layer output row of `condensate_amount`
(`{index, Wk_layer, delta_x_percent}`). -/
structure LayerWk where
  index : ℕ
  Wk_layer : ℚ
  delta_x_percent : ℚ

/-- Result record of `condensate_amount` (`{Wk_total, layers}`). -/
structure CondResult where
  Wk_total : ℚ
  layers : List LayerWk

/-- One step of `condensate_amount`'s zone loop: skip degenerate zones,
accumulate `Wk_rate·tk` into the total and distribute it over the layers
proportionally to axis overlap.  The per-layer accumulator array is a map
from the layer index. -/
def condStep (z_axis : List ℚ) (tk_hours : ℚ) (st : ℚ × (ℕ → ℚ)) (z : Zone) :
    ℚ × (ℕ → ℚ) :=
  let dz_zone := max 0 (z.end_z - z.start_z)
  if dz_zone ≤ 0 then st
  else
    let Wk_rate := max 0 (z.g_before - z.g_after)
    (st.1 + Wk_rate * tk_hours, fun i =>
      let z0 := z_axis.getD i 0
      let z1 := z_axis.getD (i + 1) 0
      let overlap := max 0 (min z1 z.end_z - max z0 z.start_z)
      if 0 < overlap ∧ 0 < dz_zone then st.2 i + Wk_rate * tk_hours * (overlap / dz_zone)
      else st.2 i)

/-- Verification-side name for the per-zone accumulation rate
`max(0, g_before − g_after)`. -/
def zoneRate (z : Zone) : ℚ := max 0 (z.g_before - z.g_after)

/-- Verification-side name for the overlap length between layer `i`'s axis
segment and a zone. -/
def zoneOverlap (z_axis : List ℚ) (i : ℕ) (z : Zone) : ℚ :=
  max 0 (min (z_axis.getD (i + 1) 0) z.end_z - max (z_axis.getD i 0) z.start_z)

/-- Contribution of one zone to `Wk_total` in `condensate_amount`'s loop. -/
def zoneTotalContrib (tk : ℚ) (z : Zone) : ℚ :=
  if max 0 (z.end_z - z.start_z) ≤ 0 then 0 else zoneRate z * tk

/-- Contribution of one zone to layer `i` in `condensate_amount`'s loop. -/
def zoneLayerContrib (z_axis : List ℚ) (tk : ℚ) (i : ℕ) (z : Zone) : ℚ :=
  if max 0 (z.end_z - z.start_z) ≤ 0 then 0
  else if 0 < zoneOverlap z_axis i z ∧ 0 < max 0 (z.end_z - z.start_z) then
    zoneRate z * tk * (zoneOverlap z_axis i z / max 0 (z.end_z - z.start_z))
  else 0

/-- Source `condensate_amount`: total and per-layer condensate over `tk`
hours, plus the moisture increase `Δx%` with the `1e-9` floors. -/
def condensate_amount (pmax : ℚ → ℚ) (A : Assembly) (C : Climate) (tk_hours : ℚ) :
    CondResult :=
  let gp := glaser_profile pmax A C
  let zones := gp.zones
  let z_axis := z_profile A
  let acc := zones.foldl (condStep z_axis tk_hours) (0, fun _ => 0)
  let layers_out := A.layers.enum.map (fun il =>
    let i := il.1
    let layer := il.2
    let Wk_layer := acc.2 i
    let dz_phys := max layer.d 1e-9
    let rho := max layer.rho 1e-9
    { index := i, Wk_layer := Wk_layer,
      delta_x_percent := Wk_layer / (dz_phys * rho) * 100 : LayerWk })
  { Wk_total := acc.1, layers := layers_out }

/-- Result record of `drying_capacity` (`{capacity_kg_m2, ok}`). -/
structure DryingResult where
  capacity_kg_m2 : ℚ
  ok : Bool

/-- Source `drying_capacity`: default drying climate 18 °C / 65 % on both
sides; capacity `|p_i − p_e| / Σz · tu`, or 0 when the total vapor
resistance is ≤ 0. -/
def drying_capacity (pmax : ℚ → ℚ) (A : Assembly) (tu_hours : ℚ)
    (drying_climate : Option Climate) : DryingResult :=
  let dc := drying_climate.getD { theta_i := 18, phi_i := 65, theta_e := 18, phi_e := 65 }
  let pp := partial_pressures pmax dc
  let s_total := if A.layers.isEmpty then 0 else (z_profile A).getLastD 0
  if s_total ≤ 0 then { capacity_kg_m2 := 0, ok := false }
  else
    let g := |pp.1 - pp.2| / s_total
    let capacity := g * tu_hours
    { capacity_kg_m2 := capacity, ok := decide (0 < capacity) }

/-- Source `drying_check`: condensate from the condensation period versus
drying capacity from the drying period. -/
def drying_check (pmax : ℚ → ℚ) (A : Assembly) (C : Climate) (tk_hours tu_hours : ℚ)
    (drying_climate : Option Climate) : Bool :=
  let wk := condensate_amount pmax A C tk_hours
  let capacity := (drying_capacity pmax A tu_hours drying_climate).capacity_kg_m2
  decide (wk.Wk_total ≤ capacity)

/-- Result record of `surface_condensation_risk`; the degenerate branch of the
source returns a dict without the external-surface keys, rendered here as
`none`. -/
structure SurfaceRisk where
  theta_si : ℚ
  theta_s : ℚ
  risk : Bool
  theta_se : Option ℚ
  theta_s_e : Option ℚ
  risk_e : Option Bool

/-- Effective threshold temperature: the tabulated `θs` when the table is
present and returns a value without raising, else the dew point. -/
def effective_theta_s (tbl : Option (ℚ → ℚ → Except Unit (Option ℚ)))
    (dewp : ℚ → ℚ → ℚ) (theta phi : ℚ) : ℚ :=
  match tbl with
  | some f =>
      match f theta phi with
      | Except.ok (some v) => v
      | Except.ok none => dewp theta phi
      | Except.error _ => dewp theta phi
  | none => dewp theta phi

/-- Source `surface_condensation_risk`: `θsi = θi − q·Rsi` against the
threshold at `(θi, φi)`, and the profile's external surface temperature
against the threshold at `(θe, φe)`.  The degenerate test
`not isfinite(U) or R_total == 0` is again `R_total ≤ 0`. -/
def surface_condensation_risk (tbl : Option (ℚ → ℚ → Except Unit (Option ℚ)))
    (dewp : ℚ → ℚ → ℚ) (A : Assembly) (C : Climate) : SurfaceRisk :=
  let R_total := (u_value A).2
  if R_total ≤ 0 then
    { theta_si := C.theta_i, theta_s := dewp C.theta_i C.phi_i, risk := false,
      theta_se := none, theta_s_e := none, risk_e := none }
  else
    let q := (1 / R_total) * (C.theta_i - C.theta_e)
    let theta_si := C.theta_i - q * A.Rsi
    let theta_s := effective_theta_s tbl dewp C.theta_i C.phi_i
    let risk := decide (theta_si < theta_s)
    let theta_se := (temperature_profile A C).getLastD 0
    let theta_s_e := effective_theta_s tbl dewp C.theta_e C.phi_e
    let risk_e := decide (theta_se < theta_s_e)
    { theta_si := theta_si, theta_s := theta_s, risk := risk,
      theta_se := some theta_se, theta_s_e := some theta_s_e, risk_e := some risk_e }

/-- Verification-side predicate on one detection segment `(z0, d0) → (z1, d1)`:
when the segment enters a zone (`d0 ≤ 0 < d1`) its interpolated crossing
coordinate satisfies `P`. -/
def SegHyp (P : ℚ → Prop) (s1 s2 : ℚ × ℚ) : Prop :=
  s1.2 ≤ 0 → 0 < s2.2 → P (s1.1 + interT s1.2 s2.2 * (s2.1 - s1.1))

/-- Verification-side invariant of the detection loop relative to the current
coordinate `z0` and difference `d0`: every accumulated interval lies in
`[lo, z0]` with positive length, a positive running difference forces the last
interval to end exactly at `z0` (and an empty accumulator to be at the very
start), and every interval start satisfies `P` or is the axis origin. -/
def AccInv (P : ℚ → Prop) (lo z0 d0 : ℚ) (acc : List (ℚ × ℚ)) : Prop :=
  (∀ x ∈ acc, lo ≤ x.1 ∧ x.1 < x.2 ∧ x.2 ≤ z0) ∧
  (0 < d0 → (acc = [] → z0 = lo) ∧ (∀ hd tl, acc = hd :: tl → hd.2 = z0)) ∧
  (∀ x ∈ acc, P x.1 ∨ x.1 = lo) ∧
  lo ≤ z0

/-- The linear ambient line along the vapor axis, `p_i − g0·z` with
`g0 = (p_i − p_e)/z_total`; used to state what the reconstructed Glaser
polyline actually follows. -/
def lineAt (pmax : ℚ → ℚ) (A : Assembly) (C : Climate) (z : ℚ) : ℚ :=
  (partial_pressures pmax C).1 -
    ((partial_pressures pmax C).1 - (partial_pressures pmax C).2) /
      ((z_profile A).getLastD 0) * z

/-- Concrete layer used by the closed-instance checks: `μ·d = δ_air`, so its
vapor-axis increment is exactly 1, and `d/λ = 1`. -/
def unitLayer : Layer :=
  { d := 1.86e-7, lambda_ := 1.86e-7, mu := 1, rho := 1 }

/-- Two-layer wall of `unitLayer`s with zero surface resistances. -/
def wallTwo : Assembly := { layers := [unitLayer, unitLayer], Rsi := 0, Rse := 0 }

/-- Concrete winter climate for the closed-instance checks. -/
def winterClimate : Climate := { theta_i := 20, phi_i := 60, theta_e := 0, phi_e := 40 }

/-- Concrete saturation-pressure provider (realisable as a tabulated lookup
with knots at 0, 10 and 20 °C): 10 Pa at 10 °C, 100 Pa elsewhere on the
queried temperatures. -/
def stepTable : ℚ → ℚ := fun T => if T = 10 then 10 else 100

/-! ## List helpers -/

lemma getLastD_concat_q (l : List ℚ) (a b : ℚ) : (l ++ [b]).getLastD a = b := by
  induction l with
  | nil => rfl
  | cons x xs ih =>
      cases xs with
      | nil => rfl
      | cons y ys => simpa using ih

lemma getLastD_irrel (l : List ℚ) (a b : ℚ) (h : l ≠ []) : l.getLastD a = l.getLastD b := by
  induction l with
  | nil => exact absurd rfl h
  | cons x xs ih =>
      cases xs with
      | nil => rfl
      | cons y ys => simpa using ih (by simp)

lemma sum_map_add_q {α : Type} (l : List α) (f g : α → ℚ) :
    (l.map (fun x => f x + g x)).sum = (l.map f).sum + (l.map g).sum := by
  induction l with
  | nil => simp
  | cons x xs ih => simp [ih]; ring

lemma sum_swap_list {α : Type} (l : List α) (r : List ℕ) (c : ℕ → α → ℚ) :
    (r.map (fun i => (l.map (c i)).sum)).sum =
      (l.map (fun z => (r.map (fun i => c i z)).sum)).sum := by
  induction l with
  | nil => simp
  | cons z zs ih =>
      simp only [List.map_cons, List.sum_cons]
      rw [sum_map_add_q, ih]

/-! ## Claim C9 -/

/-- Claim C9: the saturation service never propagates a failure to its caller:
whenever the tabulated lookup is absent, raises, or returns no value,
`p_max T` is the analytic Magnus-Tetens value `611.2·exp(17.625·T/(243.04+T))`
Pa, and `dew_point` at relative humidity `φ ≤ 0` returns the sentinel
`−273.15` °C instead of raising. -/
theorem p_max_fallback_and_dew_point_sentinel :
    (∀ (expf : ℚ → ℚ) (T : ℚ),
        p_max none expf T = 611.2 * expf (17.625 * T / (243.04 + T))) ∧
    (∀ (f : ℚ → Except Unit (Option ℚ)) (expf : ℚ → ℚ) (T : ℚ),
        f T = Except.error () →
        p_max (some f) expf T = 611.2 * expf (17.625 * T / (243.04 + T))) ∧
    (∀ (f : ℚ → Except Unit (Option ℚ)) (expf : ℚ → ℚ) (T : ℚ),
        f T = Except.ok none →
        p_max (some f) expf T = 611.2 * expf (17.625 * T / (243.04 + T))) ∧
    (∀ (logf : ℚ → ℚ) (theta phi : ℚ), phi ≤ 0 →
        dew_point logf theta phi = -273.15) := by
  refine ⟨fun expf T => ?_, fun f expf T hf => ?_, fun f expf T hf => ?_,
    fun logf theta phi hphi => ?_⟩
  · show 6.112 * expf (17.625 * T / (243.04 + T)) * 100 = _
    ring
  · show (match f T with
      | Except.ok (some val) => val
      | Except.ok none => p_max_magnus_pa expf T
      | Except.error _ => p_max_magnus_pa expf T) = _
    rw [hf]
    show 6.112 * expf (17.625 * T / (243.04 + T)) * 100 = _
    ring
  · show (match f T with
      | Except.ok (some val) => val
      | Except.ok none => p_max_magnus_pa expf T
      | Except.error _ => p_max_magnus_pa expf T) = _
    rw [hf]
    show 6.112 * expf (17.625 * T / (243.04 + T)) * 100 = _
    ring
  · simp [dew_point, hphi]

/-- Closed instance discharging the hypotheses of
`p_max_fallback_and_dew_point_sentinel`. -/
theorem p_max_fallback_witness :
    p_max none (fun x => x + 1) 0 = 611.2 ∧
    p_max (some fun _ => Except.error ()) (fun x => x + 1) 0 = 611.2 ∧
    dew_point (fun x => x) 20 0 = -273.15 := by
  have h := p_max_fallback_and_dew_point_sentinel
  refine ⟨?_, ?_, h.2.2.2 (fun x => x) 20 0 le_rfl⟩
  · rw [h.1 (fun x => x + 1) 0]; norm_num
  · rw [h.2.1 (fun _ => Except.error ()) (fun x => x + 1) 0 rfl]; norm_num

/-! ## Claim C6 -/

/-- Claim C6: `u_value` returns the pair `(U, R_total)` with
`R_total = Rsi + Σ(d/λ) + Rse`, and `U = 1/R_total` except that `U` is the
infinity sentinel (`none`) exactly when `R_total ≤ 0`; the embedding is a
total function, so no exception is raised for degenerate inputs. -/
theorem u_value_spec (A : Assembly) :
    (u_value A).2 = A.Rsi + (A.layers.map (fun l => l.d / l.lambda_)).sum + A.Rse ∧
    (0 < (u_value A).2 → (u_value A).1 = some (1 / (u_value A).2)) ∧
    ((u_value A).2 ≤ 0 → (u_value A).1 = none) := by
  refine ⟨rfl, fun h => ?_, fun h => ?_⟩
  · simp only [u_value]
    rw [if_pos]
    exact h
  · simp only [u_value]
    rw [if_neg]
    exact not_lt.mpr h

/-- Closed instance discharging the hypotheses of `u_value_spec`: a positive
and a degenerate total resistance. -/
theorem u_value_spec_witness :
    (0 < (u_value wallTwo).2 ∧ (u_value wallTwo).1 = some (1 / (u_value wallTwo).2)) ∧
    ((u_value { layers := [], Rsi := 0, Rse := 0 }).2 ≤ 0 ∧
      (u_value { layers := [], Rsi := 0, Rse := 0 }).1 = none) := by
  constructor
  · exact ⟨by norm_num [u_value, wallTwo, unitLayer],
      (u_value_spec wallTwo).2.1 (by norm_num [u_value, wallTwo, unitLayer])⟩
  · exact ⟨by norm_num [u_value],
      (u_value_spec { layers := [], Rsi := 0, Rse := 0 }).2.2 (by norm_num [u_value])⟩

/-! ## Claim C5 -/

lemma z_accum_length (acc : ℚ) (ls : List Layer) :
    (z_accum acc ls).length = ls.length := by
  induction ls generalizing acc with
  | nil => rfl
  | cons l tl ih => simp [z_accum, ih]

lemma z_accum_getD (ls : List Layer) :
    ∀ (acc : ℚ) (k : ℕ), k ≤ ls.length →
      (acc :: z_accum acc ls).getD k 0 =
        acc + ((ls.take k).map (fun l => l.mu * l.d / DELTA_AIR)).sum := by
  induction ls with
  | nil =>
      intro acc k hk
      have : k = 0 := Nat.le_zero.mp hk
      simp [this]
  | cons l tl ih =>
      intro acc k hk
      cases k with
      | zero => simp
      | succ k =>
          have hk' : k ≤ tl.length := Nat.succ_le_succ_iff.mp (by simpa using hk)
          simp only [z_accum, List.getD_cons_succ, List.take_succ_cons, List.map_cons,
            List.sum_cons]
          rw [ih (acc + l.mu * l.d / DELTA_AIR) k hk']
          ring

/-- Claim C5: `vapor_pressure_profile` returns the axis of running sums of
`μ·d/δ_air` with `δ_air = 1.86e-7`, starting at 0, and a pressure profile
linearly interpolating from `p_i = (φi/100)·p_sat(θi)` to
`p_e = (φe/100)·p_sat(θe)` along that axis; when the total vapor resistance is
0 the profile is constant at `p_i`. -/
theorem vapor_pressure_profile_spec (pmax : ℚ → ℚ) (A : Assembly) (C : Climate) :
    DELTA_AIR = 1.86e-7 ∧
    (partial_pressures pmax C).1 = C.phi_i / 100 * pmax C.theta_i ∧
    (partial_pressures pmax C).2 = C.phi_e / 100 * pmax C.theta_e ∧
    (vapor_pressure_profile pmax A C).1 = z_profile A ∧
    (z_profile A).headD 0 = 0 ∧
    (z_profile A).length = A.layers.length + 1 ∧
    (∀ k, k ≤ A.layers.length →
      (z_profile A).getD k 0 =
        ((A.layers.take k).map (fun l => l.mu * l.d / DELTA_AIR)).sum) ∧
    ((z_profile A).getLastD 0 = 0 →
      (vapor_pressure_profile pmax A C).2 =
        (z_profile A).map (fun _ => (partial_pressures pmax C).1)) ∧
    ((z_profile A).getLastD 0 ≠ 0 →
      (vapor_pressure_profile pmax A C).2 =
        (z_profile A).map (fun z =>
          (partial_pressures pmax C).1 +
            ((partial_pressures pmax C).2 - (partial_pressures pmax C).1) *
              (z / (z_profile A).getLastD 0))) := by
  have hne : ((z_profile A).isEmpty = true) = False := by simp [z_profile]
  refine ⟨rfl, rfl, rfl, ?_, rfl, by simp [z_profile, z_accum_length], ?_, ?_, ?_⟩
  · simp only [vapor_pressure_profile, hne, if_false]
    split <;> rfl
  · intro k hk
    simpa [z_profile] using z_accum_getD A.layers 0 k hk
  · intro hz
    simp only [vapor_pressure_profile, hne, if_false]
    rw [if_pos hz]
  · intro hz
    simp only [vapor_pressure_profile, hne, if_false]
    rw [if_neg hz]
    exact List.map_congr_left fun z _ => by ring

/-- Closed instance discharging the hypotheses of
`vapor_pressure_profile_spec`. -/
theorem vapor_pressure_profile_spec_witness :
    ((z_profile wallTwo).getLastD 0 ≠ 0 ∧
      (vapor_pressure_profile stepTable wallTwo winterClimate).2 =
        (z_profile wallTwo).map (fun z =>
          (partial_pressures stepTable winterClimate).1 +
            ((partial_pressures stepTable winterClimate).2 -
              (partial_pressures stepTable winterClimate).1) *
                (z / (z_profile wallTwo).getLastD 0))) ∧
    (1 ≤ wallTwo.layers.length ∧
      (z_profile wallTwo).getD 1 0 =
        ((wallTwo.layers.take 1).map (fun l => l.mu * l.d / DELTA_AIR)).sum) := by
  have h := vapor_pressure_profile_spec stepTable wallTwo winterClimate
  have hz : (z_profile wallTwo).getLastD 0 ≠ 0 := by
    norm_num [z_profile, z_accum, wallTwo, unitLayer, DELTA_AIR]
  exact ⟨⟨hz, h.2.2.2.2.2.2.2.2 hz⟩,
    ⟨by norm_num [wallTwo], h.2.2.2.2.2.2.1 1 (by norm_num [wallTwo])⟩⟩

/-! ## Claim C4 -/

lemma temp_accum_length (C : Climate) (q : ℚ) (R : ℚ) (ls : List Layer) :
    (temp_accum C q R ls).length = ls.length := by
  induction ls generalizing R with
  | nil => rfl
  | cons l tl ih => simp [temp_accum, ih]

lemma headD_dropLast_concat (x y : ℚ) (l : List ℚ) (h : l ≠ []) :
    ((x :: l).dropLast ++ [y]).headD 0 = x := by
  cases l with
  | nil => exact absurd rfl h
  | cons a l2 => simp

/-- Claim C4, amended: for positive total resistance the profile has length
`len(layers)+1` (length 2 when there are no layers), its first element lies
between `min(θi, θe)` and `max(θi, θe)` (for nonnegative resistances), and its
last element is `θe + q·Rse`; in the degenerate case (`U` non-finite, i.e.
`R_total ≤ 0`) the source returns `[θi]·(len+1) ++ [θe]` — one element longer
than `len(layers)+1` and ending in `θe`, not `θi` for every entry. -/
theorem temperature_profile_spec (A : Assembly) (C : Climate)
    (hRsi : 0 ≤ A.Rsi) (hRse : 0 ≤ A.Rse)
    (hlay : ∀ l ∈ A.layers, 0 ≤ l.d / l.lambda_) :
    (0 < (u_value A).2 →
      (A.layers ≠ [] → (temperature_profile A C).length = A.layers.length + 1) ∧
      (A.layers = [] → (temperature_profile A C).length = 2) ∧
      min C.theta_i C.theta_e ≤ (temperature_profile A C).headD 0 ∧
      (temperature_profile A C).headD 0 ≤ max C.theta_i C.theta_e ∧
      (temperature_profile A C).getLastD 0 =
        C.theta_e + (1 / (u_value A).2) * (C.theta_i - C.theta_e) * A.Rse) ∧
    ((u_value A).2 ≤ 0 →
      temperature_profile A C =
        List.replicate (A.layers.length + 1) C.theta_i ++ [C.theta_e]) := by
  constructor
  · intro hR
    have hRn : ¬(u_value A).2 ≤ 0 := not_le.mpr hR
    have hsum : 0 ≤ (A.layers.map fun l => l.d / l.lambda_).sum := by
      refine List.sum_nonneg fun x hx => ?_
      obtain ⟨l, hl, rfl⟩ := List.mem_map.mp hx
      exact hlay l hl
    have hRtot : (u_value A).2 = A.Rsi + (A.layers.map fun l => l.d / l.lambda_).sum + A.Rse :=
      rfl
    have hRsiR : A.Rsi ≤ (u_value A).2 := by rw [hRtot]; linarith
    have hs0 : 0 ≤ A.Rsi / (u_value A).2 := div_nonneg hRsi hR.le
    have hs1 : A.Rsi / (u_value A).2 ≤ 1 := (div_le_one hR).mpr hRsiR
    have hhead : (temperature_profile A C).headD 0 =
        C.theta_i - 1 / (u_value A).2 * (C.theta_i - C.theta_e) * A.Rsi := by
      simp only [temperature_profile, hRn, if_false]
      cases hA : A.layers with
      | nil => simp [hA, temp_accum]
      | cons l tl =>
          have hnil : temp_accum C (1 / (u_value A).2 * (C.theta_i - C.theta_e))
              A.Rsi (l :: tl) ≠ [] := by
            intro hcon
            have := temp_accum_length C (1 / (u_value A).2 * (C.theta_i - C.theta_e))
              A.Rsi (l :: tl)
            rw [hcon] at this
            simp at this
          simp only [hA, List.isEmpty_cons, Bool.false_eq_true, if_false]
          exact headD_dropLast_concat _ _ _ hnil
    refine ⟨?_, ?_, ?_, ?_, ?_⟩
    · intro hA
      have : ¬A.layers.isEmpty = true := by simp [hA]
      simp [temperature_profile, hRn, this, temp_accum_length]
    · intro hA
      simp [temperature_profile, hRn, hA, temp_accum]
    · rw [hhead]
      have key : C.theta_i - 1 / (u_value A).2 * (C.theta_i - C.theta_e) * A.Rsi =
          C.theta_i - (C.theta_i - C.theta_e) * (A.Rsi / (u_value A).2) := by ring
      rw [key]
      rcases le_total C.theta_i C.theta_e with hte | hte
      · rw [min_eq_left hte]
        nlinarith [mul_nonneg hs0 (sub_nonneg.mpr hte)]
      · rw [min_eq_right hte]
        nlinarith [mul_nonneg (sub_nonneg.mpr hs1) (sub_nonneg.mpr hte)]
    · rw [hhead]
      have key : C.theta_i - 1 / (u_value A).2 * (C.theta_i - C.theta_e) * A.Rsi =
          C.theta_i - (C.theta_i - C.theta_e) * (A.Rsi / (u_value A).2) := by ring
      rw [key]
      rcases le_total C.theta_i C.theta_e with hte | hte
      · rw [max_eq_right hte]
        nlinarith [mul_nonneg (sub_nonneg.mpr hs1) (sub_nonneg.mpr hte)]
      · rw [max_eq_left hte]
        nlinarith [mul_nonneg hs0 (sub_nonneg.mpr hte)]
    · simp only [temperature_profile, hRn, if_false]
      split <;> rw [getLastD_concat_q]
  · intro hR
    simp [temperature_profile, hR]

/-- Claim C4 counterexample: on the layerless assembly with zero surface
resistances (degenerate, `U` non-finite) the source returns `[θi, θe]`, whose
length is not `len(layers)+1` and whose entries are not all `θi`. -/
theorem temperature_profile_counterexample :
    temperature_profile { layers := [], Rsi := 0, Rse := 0 }
        { theta_i := 20, phi_i := 50, theta_e := 5, phi_e := 80 } = [20, 5] ∧
    (temperature_profile { layers := [], Rsi := 0, Rse := 0 }
        { theta_i := 20, phi_i := 50, theta_e := 5, phi_e := 80 }).length ≠
      ({ layers := [], Rsi := 0, Rse := 0 } : Assembly).layers.length + 1 ∧
    ¬(∀ x ∈ temperature_profile { layers := [], Rsi := 0, Rse := 0 }
        { theta_i := 20, phi_i := 50, theta_e := 5, phi_e := 80 },
        x = (20 : ℚ)) := by
  refine ⟨?_, ?_, ?_⟩ <;> norm_num [temperature_profile, u_value]

/-- Closed instance discharging the hypotheses of `temperature_profile_spec`:
a non-degenerate two-layer wall and a degenerate layerless assembly. -/
theorem temperature_profile_spec_witness :
    ((temperature_profile wallTwo winterClimate).length = wallTwo.layers.length + 1 ∧
      min winterClimate.theta_i winterClimate.theta_e ≤
        (temperature_profile wallTwo winterClimate).headD 0) ∧
    temperature_profile { layers := [], Rsi := 0, Rse := 0 } winterClimate =
      List.replicate 1 winterClimate.theta_i ++ [winterClimate.theta_e] := by
  have h1 := temperature_profile_spec wallTwo winterClimate (by norm_num [wallTwo])
    (by norm_num [wallTwo])
    (by intro l hl; simp [wallTwo, unitLayer] at hl; norm_num [hl, unitLayer])
  have h2 := temperature_profile_spec { layers := [], Rsi := 0, Rse := 0 } winterClimate
    (by norm_num) (by norm_num) (by intro l hl; simp at hl)
  have hR : 0 < (u_value wallTwo).2 := by norm_num [u_value, wallTwo, unitLayer]
  refine ⟨⟨(h1.1 hR).1 (by simp [wallTwo]), (h1.1 hR).2.2.1⟩, ?_⟩
  have := h2.2 (by norm_num [u_value])
  simpa using this

/-! ## Claim C7 -/

lemma s_total_eq (A : Assembly) :
    (if A.layers.isEmpty then (0 : ℚ) else (z_profile A).getLastD 0) =
      (z_profile A).getLastD 0 := by
  cases hA : A.layers with
  | nil => simp [z_profile, hA, z_accum]
  | cons l tl => simp [hA]

/-- Claim C7: `drying_capacity` with no drying climate supplied uses the
default 18 °C / 65 % RH on both sides; for positive total vapor resistance it
returns `|p_i − p_e| / Σz · tu`, and it returns 0 without raising when the
total vapor resistance is ≤ 0; `drying_check` returns true exactly when the
drying capacity is ≥ the `Wk_total` computed by `condensate_amount` for the
condensation climate and period. -/
theorem drying_spec (pmax : ℚ → ℚ) (A : Assembly) (C : Climate) (tk tu : ℚ)
    (dc : Option Climate) :
    drying_capacity pmax A tu none =
      drying_capacity pmax A tu
        (some { theta_i := 18, phi_i := 65, theta_e := 18, phi_e := 65 }) ∧
    (0 < (z_profile A).getLastD 0 →
      (drying_capacity pmax A tu dc).capacity_kg_m2 =
        |(partial_pressures pmax
            (dc.getD { theta_i := 18, phi_i := 65, theta_e := 18, phi_e := 65 })).1 -
          (partial_pressures pmax
            (dc.getD { theta_i := 18, phi_i := 65, theta_e := 18, phi_e := 65 })).2| /
          (z_profile A).getLastD 0 * tu) ∧
    ((z_profile A).getLastD 0 ≤ 0 →
      (drying_capacity pmax A tu dc).capacity_kg_m2 = 0) ∧
    (drying_check pmax A C tk tu dc = true ↔
      (condensate_amount pmax A C tk).Wk_total ≤
        (drying_capacity pmax A tu dc).capacity_kg_m2) := by
  refine ⟨rfl, ?_, ?_, ?_⟩
  · intro hs
    simp only [drying_capacity, s_total_eq, if_neg (not_le.mpr hs)]
  · intro hs
    simp only [drying_capacity, s_total_eq, if_pos hs]
  · simp only [drying_check, decide_eq_true_eq]

/-- Closed instance discharging the hypotheses of `drying_spec`: a wall with
positive vapor resistance and the degenerate layerless assembly. -/
theorem drying_spec_witness :
    (0 < (z_profile wallTwo).getLastD 0 ∧
      (drying_capacity stepTable wallTwo 24 none).capacity_kg_m2 =
        |(partial_pressures stepTable
            ((none : Option Climate).getD
              { theta_i := 18, phi_i := 65, theta_e := 18, phi_e := 65 })).1 -
          (partial_pressures stepTable
            ((none : Option Climate).getD
              { theta_i := 18, phi_i := 65, theta_e := 18, phi_e := 65 })).2| /
          (z_profile wallTwo).getLastD 0 * 24) ∧
    ((z_profile { layers := [], Rsi := 0, Rse := 0 }).getLastD 0 ≤ 0 ∧
      (drying_capacity stepTable { layers := [], Rsi := 0, Rse := 0 } 24
        none).capacity_kg_m2 = 0) := by
  have hpos : 0 < (z_profile wallTwo).getLastD 0 := by
    norm_num [z_profile, z_accum, wallTwo, unitLayer, DELTA_AIR]
  have hz : (z_profile { layers := [], Rsi := 0, Rse := 0 }).getLastD 0 ≤ 0 := by
    norm_num [z_profile, z_accum]
  exact ⟨⟨hpos, (drying_spec stepTable wallTwo winterClimate 1 24 none).2.1 hpos⟩,
    ⟨hz, (drying_spec stepTable { layers := [], Rsi := 0, Rse := 0 }
      winterClimate 1 24 none).2.2.1 hz⟩⟩

/-! ## Claim C8 -/

/-- Claim C8: `surface_condensation_risk` reports internal risk true exactly
when `θsi = θi − q·Rsi` is below the threshold temperature at `(θi, φi)`
(tabulated `θs` if available, dew point otherwise), reports external risk by
comparing the profile's external surface temperature with the threshold at
`(θe, φe)`, and reports no risk (and no external fields) in the degenerate
non-finite-`U` case, without raising. -/
theorem surface_risk_spec (tbl : Option (ℚ → ℚ → Except Unit (Option ℚ)))
    (dewp : ℚ → ℚ → ℚ) (A : Assembly) (C : Climate) :
    (0 < (u_value A).2 →
      (surface_condensation_risk tbl dewp A C).theta_si =
        C.theta_i - (1 / (u_value A).2) * (C.theta_i - C.theta_e) * A.Rsi ∧
      ((surface_condensation_risk tbl dewp A C).risk = true ↔
        (surface_condensation_risk tbl dewp A C).theta_si <
          effective_theta_s tbl dewp C.theta_i C.phi_i) ∧
      (surface_condensation_risk tbl dewp A C).theta_se =
        some ((temperature_profile A C).getLastD 0) ∧
      ((surface_condensation_risk tbl dewp A C).risk_e = some true ↔
        (temperature_profile A C).getLastD 0 <
          effective_theta_s tbl dewp C.theta_e C.phi_e)) ∧
    ((u_value A).2 ≤ 0 →
      (surface_condensation_risk tbl dewp A C).risk = false ∧
      (surface_condensation_risk tbl dewp A C).risk_e = none) := by
  constructor
  · intro hR
    have hRn : ¬(u_value A).2 ≤ 0 := not_le.mpr hR
    simp [surface_condensation_risk, hRn]
  · intro hR
    simp [surface_condensation_risk, hR]

/-- Closed instance discharging the hypotheses of `surface_risk_spec`:
non-degenerate and degenerate total resistance. -/
theorem surface_risk_spec_witness :
    (0 < (u_value wallTwo).2 ∧
      ((surface_condensation_risk none (fun t _ => t - 5) wallTwo winterClimate).risk = true ↔
        (surface_condensation_risk none (fun t _ => t - 5) wallTwo winterClimate).theta_si <
          effective_theta_s none (fun t _ => t - 5) winterClimate.theta_i
            winterClimate.phi_i)) ∧
    ((u_value { layers := [], Rsi := 0, Rse := 0 }).2 ≤ 0 ∧
      (surface_condensation_risk none (fun t _ => t - 5)
        { layers := [], Rsi := 0, Rse := 0 } winterClimate).risk_e = none) := by
  have hR : 0 < (u_value wallTwo).2 := by norm_num [u_value, wallTwo, unitLayer]
  have hz : (u_value { layers := [], Rsi := 0, Rse := 0 }).2 ≤ 0 := by norm_num [u_value]
  exact ⟨⟨hR, ((surface_risk_spec none (fun t _ => t - 5) wallTwo winterClimate).1 hR).2.1⟩,
    ⟨hz, ((surface_risk_spec none (fun t _ => t - 5)
      { layers := [], Rsi := 0, Rse := 0 } winterClimate).2 hz).2⟩⟩

/-! ## Glaser structure lemmas -/

lemma tol_pos : (0 : ℚ) < tol := by norm_num [tol]

lemma z_profile_ne_nil (A : Assembly) : z_profile A ≠ [] := by simp [z_profile]

lemma vp_fst (pmax : ℚ → ℚ) (A : Assembly) (C : Climate) :
    (vapor_pressure_profile pmax A C).1 = z_profile A := by
  have hne : ((z_profile A).isEmpty = true) = False := by simp [z_profile]
  simp only [vapor_pressure_profile, hne, if_false]
  split <;> rfl

lemma glaser_profile_fields (pmax : ℚ → ℚ) (A : Assembly) (C : Climate) :
    glaser_profile pmax A C =
      { z_axis := z_profile A,
        p_sat := saturation_pressure_profile pmax (temperature_profile A C),
        p_linear := (vapor_pressure_profile pmax A C).2,
        z_final := (glaserCore (z_profile A) (vapor_pressure_profile pmax A C).2
          (saturation_pressure_profile pmax (temperature_profile A C))).1,
        p_final := (glaserCore (z_profile A) (vapor_pressure_profile pmax A C).2
          (saturation_pressure_profile pmax (temperature_profile A C))).2.1,
        zones := (glaserCore (z_profile A) (vapor_pressure_profile pmax A C).2
          (saturation_pressure_profile pmax (temperature_profile A C))).2.2 } := by
  have h1 : (vapor_pressure_profile pmax A C).1 = z_profile A := vp_fst pmax A C
  have hne : ((z_profile A).isEmpty = true) = False := by simp [z_profile]
  simp only [glaser_profile, h1, hne, if_false]

lemma glaserMid_se (isat : ℚ → ℚ) (ms : List (ℚ × ℚ)) :
    ∀ st : MidState,
      ((glaserMid isat ms st).done ++ [(glaserMid isat ms st).cur]).map
          (fun z => (z.start_z, z.end_z)) =
        (st.done ++ [st.cur]).map (fun z => (z.start_z, z.end_z)) ++ ms := by
  induction ms with
  | nil => intro st; simp [glaserMid]
  | cons ab rest ih =>
      intro st
      obtain ⟨a, b⟩ := ab
      show ((glaserMid isat rest _).done ++ [(glaserMid isat rest _).cur]).map _ = _
      rw [ih]
      simp

lemma swapPair_le (ab : ℚ × ℚ) : (swapPair ab).1 ≤ (swapPair ab).2 := by
  rcases ab with ⟨a, b⟩
  simp only [swapPair]
  split_ifs with h
  · exact le_of_lt h
  · exact le_of_not_lt h

lemma stepM_le (acc : List (ℚ × ℚ)) (x : ℚ × ℚ)
    (h : ∀ p ∈ acc, p.1 ≤ p.2) : ∀ p ∈ stepM acc x, p.1 ≤ p.2 := by
  intro p hp
  cases acc with
  | nil =>
      simp only [stepM, List.mem_singleton] at hp
      subst hp
      exact swapPair_le x
  | cons q tl =>
      obtain ⟨pa, pb⟩ := q
      simp only [stepM] at hp
      split_ifs at hp with hcond
      · rcases List.mem_cons.mp hp with rfl | hmem
        · exact le_trans (h (pa, pb) (List.mem_cons_self _ _)) (le_max_left _ _)
        · exact h p (List.mem_cons_of_mem _ hmem)
      · rcases List.mem_cons.mp hp with rfl | hmem
        · exact swapPair_le x
        · exact h p hmem

lemma stepM_chain (acc : List (ℚ × ℚ)) (x : ℚ × ℚ)
    (hc : List.Chain' (fun u v => v.2 + tol < u.1) acc) :
    List.Chain' (fun u v => v.2 + tol < u.1) (stepM acc x) := by
  cases acc with
  | nil => exact List.chain'_singleton _
  | cons q tl =>
      obtain ⟨pa, pb⟩ := q
      simp only [stepM]
      split_ifs with hcond
      · cases tl with
        | nil => exact List.chain'_singleton _
        | cons r tr =>
            exact List.chain'_cons.mpr ⟨(List.chain'_cons.mp hc).1, (List.chain'_cons.mp hc).2⟩
      · exact List.chain'_cons.mpr ⟨by linarith [not_le.mp hcond], hc⟩

lemma merge_foldl_inv (L : List (ℚ × ℚ)) :
    ∀ acc, List.Chain' (fun u v => v.2 + tol < u.1) acc → (∀ p ∈ acc, p.1 ≤ p.2) →
      List.Chain' (fun u v => v.2 + tol < u.1) (L.foldl stepM acc) ∧
      (∀ p ∈ L.foldl stepM acc, p.1 ≤ p.2) := by
  induction L with
  | nil => intro acc h1 h2; exact ⟨h1, h2⟩
  | cons x xs ih =>
      intro acc h1 h2
      exact ih (stepM acc x) (stepM_chain acc x h1) (stepM_le acc x h2)

lemma mergeIntervals_inv (L : List (ℚ × ℚ)) :
    List.Chain' (fun u v => u.2 + tol < v.1) (mergeIntervals L) ∧
    (∀ p ∈ mergeIntervals L, p.1 ≤ p.2) := by
  have h := merge_foldl_inv L [] (by simp) (by simp)
  refine ⟨?_, fun p hp => h.2 p (List.mem_reverse.mp hp)⟩
  exact List.chain'_reverse.mpr h.1

lemma chain_gap_pairwise (l : List (ℚ × ℚ))
    (hc : List.Chain' (fun u v => u.2 + tol < v.1) l)
    (hle : ∀ p ∈ l, p.1 ≤ p.2) :
    List.Pairwise (fun u v => u.2 < v.1) l := by
  induction l with
  | nil => exact List.Pairwise.nil
  | cons a l ih =>
      refine List.Pairwise.cons ?_ (ih hc.tail (fun p hp => hle p (List.mem_cons_of_mem a hp)))
      intro b hb
      cases l with
      | nil => simp at hb
      | cons h t =>
          have hah : a.2 + tol < h.1 := (List.chain'_cons.mp hc).1
          have hpt : List.Pairwise (fun u v => u.2 < v.1) (h :: t) :=
            ih hc.tail (fun p hp => hle p (List.mem_cons_of_mem a hp))
          rcases List.mem_cons.mp hb with rfl | hbt
          · linarith [tol_pos]
          · have h1 : h.2 < b.1 := (List.pairwise_cons.mp hpt).1 b hbt
            have h2 : h.1 ≤ h.2 := hle h (List.mem_cons_of_mem a (List.mem_cons_self _ _))
            linarith [tol_pos]

lemma glaserCore_zones_se (z_axis p_lin p_sat : List ℚ) :
    (glaserCore z_axis p_lin p_sat).2.2.map (fun z => (z.start_z, z.end_z)) =
      mergeIntervals (detectIntervals z_axis
        (List.zipWith (fun a b => a - b) p_lin p_sat)) := by
  simp only [glaserCore]
  split
  · rename_i heq
    rw [heq]
    rfl
  · rename_i a0 b0 mrest heq
    rw [heq]
    dsimp only
    rw [List.map_append]
    have hupd : ∀ (st : MidState) (g : ℚ),
        List.map (fun z => (z.start_z, z.end_z)) [{ st.cur with g_after := g }] =
          List.map (fun z => (z.start_z, z.end_z)) [st.cur] := fun _ _ => rfl
    rw [hupd]
    rw [← List.map_append]
    rw [glaserMid_se]
    simp

/-! ## Detection-loop invariants -/

lemma getLastD_cons_cons (a b d : ℚ) (l : List ℚ) :
    (a :: b :: l).getLastD d = (b :: l).getLastD d := by
  rw [List.getLastD_cons d a (b :: l)]
  exact getLastD_irrel (b :: l) a d (by simp)

lemma chain_head_le_getLastD (l : List ℚ) :
    ∀ (z0 lo : ℚ), List.Chain' (· < ·) (z0 :: l) → z0 ≤ (z0 :: l).getLastD lo := by
  induction l with
  | nil => intro z0 lo _; simp [List.getLastD_cons]
  | cons z1 l2 ih =>
      intro z0 lo hc
      have h01 : z0 < z1 := (List.chain'_cons.mp hc).1
      have h2 := ih z1 lo (List.chain'_cons.mp hc).2
      rw [getLastD_cons_cons]
      linarith

lemma interT_enter (d0 d1 : ℚ) (h0 : d0 ≤ 0) (h1 : 0 < d1) :
    0 ≤ interT d0 d1 ∧ interT d0 d1 < 1 := by
  have hpos : 0 < d1 - d0 := by linarith
  simp only [interT, if_neg (ne_of_gt hpos)]
  constructor
  · exact div_nonneg (by linarith) hpos.le
  · rw [div_lt_one hpos]; linarith

lemma interT_leave (d0 d1 : ℚ) (h0 : 0 < d0) (h1 : d1 ≤ 0) :
    0 < interT d0 d1 ∧ interT d0 d1 ≤ 1 := by
  have hneg : d1 - d0 < 0 := by linarith
  simp only [interT, if_neg (ne_of_lt hneg)]
  have hrw : (-d0) / (d1 - d0) = d0 / (d0 - d1) := by
    rw [show d1 - d0 = -(d0 - d1) by ring, div_neg, neg_div, neg_neg]
  rw [hrw]
  have hpos : 0 < d0 - d1 := by linarith
  constructor
  · exact div_pos h0 hpos
  · rw [div_le_one hpos]; linarith

lemma cross_enter_bounds (z0 z1 d0 d1 : ℚ) (hz : z0 < z1) (h0 : d0 ≤ 0) (h1 : 0 < d1) :
    z0 ≤ z0 + interT d0 d1 * (z1 - z0) ∧ z0 + interT d0 d1 * (z1 - z0) < z1 := by
  obtain ⟨ht0, ht1⟩ := interT_enter d0 d1 h0 h1
  constructor
  · nlinarith
  · nlinarith

lemma cross_leave_bounds (z0 z1 d0 d1 : ℚ) (hz : z0 < z1) (h0 : 0 < d0) (h1 : d1 ≤ 0) :
    z0 < z0 + interT d0 d1 * (z1 - z0) ∧ z0 + interT d0 d1 * (z1 - z0) ≤ z1 := by
  obtain ⟨ht0, ht1⟩ := interT_leave d0 d1 h0 h1
  constructor
  · nlinarith
  · nlinarith

lemma stepI_inv (P : ℚ → Prop) (lo z0 z1 d0 d1 : ℚ)
    (hz : z0 < z1) (hseg : SegHyp P (z0, d0) (z1, d1))
    (acc : List (ℚ × ℚ)) (hinv : AccInv P lo z0 d0 acc) :
    AccInv P lo z1 d1 (stepI acc z0 z1 d0 d1) := by
  obtain ⟨hI1, hI4, hI5, hlo⟩ := hinv
  cases acc with
  | nil =>
      simp only [stepI]
      split_ifs with c1 c3 c4
      · -- both positive, empty accumulator: interval [z0, z1], z0 = lo
        have hz0lo : z0 = lo := (hI4 c1.1).1 rfl
        refine ⟨?_, ?_, ?_, by linarith⟩
        · intro x hx
          simp only [List.mem_singleton] at hx
          subst hx
          refine ⟨?_, ?_, ?_⟩ <;> dsimp only <;> linarith
        · intro _
          exact ⟨fun h => by simp at h, fun hd tl h => by
            simp only [List.cons.injEq] at h
            rw [← h.1]⟩
        · intro x hx
          simp only [List.mem_singleton] at hx
          subst hx
          exact Or.inr hz0lo
      · -- entering crossing, empty accumulator
        obtain ⟨hb0, hb1⟩ := cross_enter_bounds z0 z1 d0 d1 hz c3.1 c3.2
        refine ⟨?_, ?_, ?_, by linarith⟩
        · intro x hx
          simp only [List.mem_singleton] at hx
          subst hx
          refine ⟨?_, ?_, ?_⟩ <;> dsimp only <;> linarith
        · intro _
          exact ⟨fun h => by simp at h, fun hd tl h => by
            simp only [List.cons.injEq] at h
            rw [← h.1]⟩
        · intro x hx
          simp only [List.mem_singleton] at hx
          subst hx
          exact Or.inl (hseg c3.1 c3.2)
      · -- leaving crossing, empty accumulator: interval [z0, zb], z0 = lo
        have hz0lo : z0 = lo := (hI4 c4.1).1 rfl
        obtain ⟨hb0, hb1⟩ := cross_leave_bounds z0 z1 d0 d1 hz c4.1 c4.2
        refine ⟨?_, ?_, ?_, by linarith⟩
        · intro x hx
          simp only [List.mem_singleton] at hx
          subst hx
          refine ⟨?_, ?_, ?_⟩ <;> dsimp only <;> linarith
        · intro hd1
          exact absurd hd1 (not_lt.mpr c4.2)
        · intro x hx
          simp only [List.mem_singleton] at hx
          subst hx
          exact Or.inr hz0lo
      · -- no action
        have hd1 : d1 ≤ 0 := by
          by_contra hcon
          push_neg at hcon
          rcases le_or_lt d0 0 with h | h
          · exact c3 ⟨h, hcon⟩
          · exact c1 ⟨h, hcon⟩
        refine ⟨by simp, ?_, by simp, by linarith⟩
        intro h
        exact absurd h (not_lt.mpr hd1)
  | cons q tl =>
      obtain ⟨a, b⟩ := q
      have hab := hI1 (a, b) (List.mem_cons_self _ _)
      have hab1 : lo ≤ a := hab.1
      have hab2 : a < b := hab.2.1
      have hab3 : b ≤ z0 := hab.2.2
      simp only [stepI]
      split_ifs with c1 c2 c3 c4
      · -- both positive, extend last interval to z1
        refine ⟨?_, ?_, ?_, by linarith⟩
        · intro x hx
          rcases List.mem_cons.mp hx with rfl | hmem
          · refine ⟨?_, ?_, ?_⟩ <;> dsimp only <;> linarith
          · have := hI1 x (List.mem_cons_of_mem _ hmem)
            exact ⟨this.1, this.2.1, by linarith [this.2.2]⟩
        · intro _
          exact ⟨fun h => by simp at h, fun hd tl2 h => by
            simp only [List.cons.injEq] at h
            rw [← h.1]⟩
        · intro x hx
          rcases List.mem_cons.mp hx with rfl | hmem
          · exact hI5 (a, b) (List.mem_cons_self _ _)
          · exact hI5 x (List.mem_cons_of_mem _ hmem)
      · -- both positive but the last interval does not touch z0: impossible
        exfalso
        have hb : b = z0 := (hI4 c1.1).2 (a, b) tl rfl
        apply c2
        rw [hb, sub_self, abs_zero]
        exact tol_pos
      · -- entering crossing pushed on top
        obtain ⟨hb0, hb1⟩ := cross_enter_bounds z0 z1 d0 d1 hz c3.1 c3.2
        refine ⟨?_, ?_, ?_, by linarith⟩
        · intro x hx
          rcases List.mem_cons.mp hx with rfl | hmem
          · refine ⟨?_, ?_, ?_⟩ <;> dsimp only <;> linarith
          · have := hI1 x hmem
            exact ⟨this.1, this.2.1, by linarith [this.2.2]⟩
        · intro _
          exact ⟨fun h => by simp at h, fun hd tl2 h => by
            simp only [List.cons.injEq] at h
            rw [← h.1]⟩
        · intro x hx
          rcases List.mem_cons.mp hx with rfl | hmem
          · exact Or.inl (hseg c3.1 c3.2)
          · exact hI5 x hmem
      · -- leaving crossing closes the last interval
        obtain ⟨hb0, hb1⟩ := cross_leave_bounds z0 z1 d0 d1 hz c4.1 c4.2
        refine ⟨?_, ?_, ?_, by linarith⟩
        · intro x hx
          rcases List.mem_cons.mp hx with rfl | hmem
          · refine ⟨?_, ?_, ?_⟩ <;> dsimp only <;> linarith
          · have := hI1 x (List.mem_cons_of_mem _ hmem)
            exact ⟨this.1, this.2.1, by linarith [this.2.2]⟩
        · intro hd1
          exact absurd hd1 (not_lt.mpr c4.2)
        · intro x hx
          rcases List.mem_cons.mp hx with rfl | hmem
          · exact hI5 (a, b) (List.mem_cons_self _ _)
          · exact hI5 x (List.mem_cons_of_mem _ hmem)
      · -- no action
        have hd1 : d1 ≤ 0 := by
          by_contra hcon
          push_neg at hcon
          rcases le_or_lt d0 0 with h | h
          · exact c3 ⟨h, hcon⟩
          · exact c1 ⟨h, hcon⟩
        refine ⟨?_, ?_, hI5, by linarith⟩
        · intro x hx
          have := hI1 x hx
          exact ⟨this.1, this.2.1, by linarith [this.2.2]⟩
        · intro h
          exact absurd h (not_lt.mpr hd1)

lemma buildIntervals_inv (P : ℚ → Prop) (lo : ℚ) :
    ∀ (zs ds : List ℚ) (acc : List (ℚ × ℚ)),
      List.Chain' (· < ·) zs →
      List.Chain' (SegHyp P) (zs.zip ds) →
      (match zs.head?, ds.head? with
       | some z0, some d0 => AccInv P lo z0 d0 acc
       | _, _ => acc = []) →
      ∀ x ∈ buildIntervals acc zs ds,
        (lo ≤ x.1 ∧ x.1 < x.2 ∧ x.2 ≤ zs.getLastD lo) ∧ (P x.1 ∨ x.1 = lo) := by
  intro zs
  induction zs with
  | nil =>
      intro ds acc _ _ hinv x hx
      simp only [List.head?_nil] at hinv
      rw [show buildIntervals acc [] ds = acc from by cases ds <;> rfl, hinv] at hx
      simp at hx
  | cons z0 ztl ih =>
      intro ds acc hchain hseg hinv x hx
      cases ds with
      | nil =>
          simp only [List.head?_nil] at hinv
          rw [show buildIntervals acc (z0 :: ztl) [] = acc from by cases ztl <;> rfl,
            hinv] at hx
          simp at hx
      | cons d0 dtl =>
          simp only [List.head?_cons] at hinv
          cases ztl with
          | nil =>
              have hx2 : x ∈ acc := by
                rwa [show buildIntervals acc [z0] (d0 :: dtl) = acc from rfl] at hx
              have h1 := hinv.1 x hx2
              have h5 := hinv.2.2.1 x hx2
              exact ⟨⟨h1.1, h1.2.1, by
                simpa [List.getLastD_cons] using h1.2.2⟩, h5⟩
          | cons z1 ztl2 =>
              cases dtl with
              | nil =>
                  have hx2 : x ∈ acc := by
                    rwa [show buildIntervals acc (z0 :: z1 :: ztl2) [d0] = acc from rfl] at hx
                  have h1 := hinv.1 x hx2
                  have h5 := hinv.2.2.1 x hx2
                  have hle : z0 ≤ (z0 :: z1 :: ztl2).getLastD lo :=
                    chain_head_le_getLastD _ z0 lo hchain
                  exact ⟨⟨h1.1, h1.2.1, le_trans h1.2.2 hle⟩, h5⟩
              | cons d1 dtl2 =>
                  have hstep : buildIntervals acc (z0 :: z1 :: ztl2) (d0 :: d1 :: dtl2) =
                      buildIntervals (stepI acc z0 z1 d0 d1) (z1 :: ztl2) (d1 :: dtl2) := rfl
                  rw [hstep] at hx
                  have hz01 : z0 < z1 := (List.chain'_cons.mp hchain).1
                  have hseg1 : SegHyp P (z0, d0) (z1, d1) :=
                    (List.chain'_cons.mp hseg).1
                  have hrec := ih (d1 :: dtl2) (stepI acc z0 z1 d0 d1)
                    (List.chain'_cons.mp hchain).2
                    (by
                      have := (List.chain'_cons.mp hseg).2
                      simpa using this)
                    (by
                      simp only [List.head?_cons]
                      exact stepI_inv P lo z0 z1 d0 d1 hz01 hseg1 acc hinv)
                    x hx
                  rw [getLastD_cons_cons]
                  exact hrec

lemma detectIntervals_inv (P : ℚ → Prop) (ztl ds : List ℚ)
    (hchain : List.Chain' (· < ·) (0 :: ztl))
    (hseg : List.Chain' (SegHyp P) ((0 :: ztl).zip ds)) :
    ∀ x ∈ detectIntervals (0 :: ztl) ds,
      (0 ≤ x.1 ∧ x.1 < x.2 ∧ x.2 ≤ (0 :: ztl).getLastD 0) ∧ (P x.1 ∨ x.1 = 0) := by
  intro x hx
  have hmem : x ∈ buildIntervals [] (0 :: ztl) ds := List.mem_reverse.mp hx
  refine buildIntervals_inv P 0 (0 :: ztl) ds [] hchain hseg ?_ x hmem
  cases ds with
  | nil => simp
  | cons d0 dtl =>
      simp only [List.head?_cons]
      refine ⟨by simp, fun _ => ⟨fun _ => rfl, fun hd tl h => by simp at h⟩, by simp,
        le_refl 0⟩

/-! ## Merged-interval element properties -/

lemma chain'_of_forall {α : Type} {R : α → α → Prop} (h : ∀ a b, R a b) :
    ∀ l : List α, List.Chain' R l := by
  intro l
  induction l with
  | nil => exact List.chain'_nil
  | cons a l ih =>
      cases l with
      | nil => exact List.chain'_singleton a
      | cons b l2 => exact List.chain'_cons.mpr ⟨h a b, ih⟩

lemma swapPair_id (x : ℚ × ℚ) (h : x.1 ≤ x.2) : swapPair x = x := by
  simp [swapPair, not_lt.mpr h]

lemma stepM_elem (S E : ℚ → Prop)
    (hmax : ∀ a b, E a → E b → E (max a b))
    (acc : List (ℚ × ℚ)) (x : ℚ × ℚ)
    (hx : S x.1 ∧ E x.2 ∧ x.1 < x.2)
    (hacc : ∀ p ∈ acc, S p.1 ∧ E p.2 ∧ p.1 < p.2) :
    ∀ p ∈ stepM acc x, S p.1 ∧ E p.2 ∧ p.1 < p.2 := by
  intro p hp
  have hid : swapPair x = x := swapPair_id x hx.2.2.le
  cases acc with
  | nil =>
      simp only [stepM, hid, List.mem_singleton] at hp
      subst hp
      exact hx
  | cons q tl =>
      obtain ⟨pa, pb⟩ := q
      have hq := hacc (pa, pb) (List.mem_cons_self _ _)
      simp only [stepM, hid] at hp
      split_ifs at hp with hcond
      · rcases List.mem_cons.mp hp with rfl | hmem
        · exact ⟨hq.1, hmax pb x.2 hq.2.1 hx.2.1,
            lt_of_lt_of_le hq.2.2 (le_max_left _ _)⟩
        · exact hacc p (List.mem_cons_of_mem _ hmem)
      · rcases List.mem_cons.mp hp with rfl | hmem
        · exact hx
        · exact hacc p hmem

lemma mergeIntervals_elem (S E : ℚ → Prop)
    (hmax : ∀ a b, E a → E b → E (max a b))
    (L : List (ℚ × ℚ))
    (hL : ∀ x ∈ L, S x.1 ∧ E x.2 ∧ x.1 < x.2) :
    ∀ p ∈ mergeIntervals L, S p.1 ∧ E p.2 ∧ p.1 < p.2 := by
  suffices h : ∀ acc, (∀ p ∈ acc, S p.1 ∧ E p.2 ∧ p.1 < p.2) →
      ∀ p ∈ L.foldl stepM acc, S p.1 ∧ E p.2 ∧ p.1 < p.2 by
    intro p hp
    exact h [] (by simp) p (List.mem_reverse.mp hp)
  induction L with
  | nil => intro acc hacc p hp; exact hacc p hp
  | cons x xs ih =>
      intro acc hacc p hp
      have hx := hL x (List.mem_cons_self _ _)
      exact ih (fun y hy => hL y (List.mem_cons_of_mem _ hy)) (stepM acc x)
        (stepM_elem S E hmax acc x hx hacc) p hp

/-! ## Axis monotonicity -/

lemma DELTA_AIR_pos : (0 : ℚ) < DELTA_AIR := by norm_num [DELTA_AIR]

lemma z_accum_chain (ls : List Layer) :
    ∀ acc : ℚ, (∀ l ∈ ls, 0 < l.mu * l.d) →
      List.Chain' (· < ·) (acc :: z_accum acc ls) := by
  induction ls with
  | nil => intro acc _; exact List.chain'_singleton acc
  | cons l tl ih =>
      intro acc hpos
      have hl : 0 < l.mu * l.d := hpos l (List.mem_cons_self _ _)
      have hstep : acc < acc + l.mu * l.d / DELTA_AIR := by
        have : 0 < l.mu * l.d / DELTA_AIR := div_pos hl DELTA_AIR_pos
        linarith
      exact List.chain'_cons.mpr
        ⟨hstep, ih (acc + l.mu * l.d / DELTA_AIR)
          (fun x hx => hpos x (List.mem_cons_of_mem _ hx))⟩

lemma z_profile_chain (A : Assembly) (hpos : ∀ l ∈ A.layers, 0 < l.mu * l.d) :
    List.Chain' (· < ·) (z_profile A) :=
  z_accum_chain A.layers 0 hpos

lemma chain_lt_head_lt_getLastD (z0 : ℚ) (l : List ℚ) (d : ℚ) (hl : l ≠ [])
    (hc : List.Chain' (· < ·) (z0 :: l)) : z0 < (z0 :: l).getLastD d := by
  cases l with
  | nil => exact absurd rfl hl
  | cons z1 l2 =>
      have h01 : z0 < z1 := (List.chain'_cons.mp hc).1
      have h2 := chain_head_le_getLastD l2 z1 d (List.chain'_cons.mp hc).2
      rw [getLastD_cons_cons]
      linarith

lemma z_total_pos (A : Assembly) (hpos : ∀ l ∈ A.layers, 0 < l.mu * l.d)
    (hne : A.layers ≠ []) : 0 < (z_profile A).getLastD 0 := by
  have hchain := z_profile_chain A hpos
  have hz : z_accum 0 A.layers ≠ [] := by
    intro h
    have := z_accum_length 0 A.layers
    rw [h] at this
    exact hne (List.length_eq_zero.mp this.symm)
  exact chain_lt_head_lt_getLastD 0 (z_accum 0 A.layers) 0 hz hchain

lemma vp_snd (pmax : ℚ → ℚ) (A : Assembly) (C : Climate)
    (h : (z_profile A).getLastD 0 ≠ 0) :
    (vapor_pressure_profile pmax A C).2 =
      (z_profile A).map (fun z => (partial_pressures pmax C).1 -
        ((partial_pressures pmax C).1 - (partial_pressures pmax C).2) /
          (z_profile A).getLastD 0 * z) := by
  have hne : ((z_profile A).isEmpty = true) = False := by simp [z_profile]
  simp only [vapor_pressure_profile, hne, if_false]
  rw [if_neg h]

/-- Bounds, strictness and start-predicate for the zones of `glaser_profile`:
every zone lies inside `[0, z_total]` with positive length, and each zone's
start satisfies `P` or is 0, provided each detection segment's entry crossing
satisfies `P`. -/
lemma glaser_zone_bounds (P : ℚ → Prop) (pmax : ℚ → ℚ) (A : Assembly) (C : Climate)
    (hpos : ∀ l ∈ A.layers, 0 < l.mu * l.d)
    (hseg : List.Chain' (SegHyp P) ((z_profile A).zip
      (List.zipWith (fun a b => a - b) (vapor_pressure_profile pmax A C).2
        (saturation_pressure_profile pmax (temperature_profile A C))))) :
    ∀ z ∈ (glaser_profile pmax A C).zones,
      (0 ≤ z.start_z ∧ z.start_z < z.end_z ∧ z.end_z ≤ (z_profile A).getLastD 0) ∧
        (P z.start_z ∨ z.start_z = 0) := by
  intro z hzmem
  have hz : (glaser_profile pmax A C).zones =
      (glaserCore (z_profile A) (vapor_pressure_profile pmax A C).2
        (saturation_pressure_profile pmax (temperature_profile A C))).2.2 := by
    rw [glaser_profile_fields]
  have hse := glaserCore_zones_se (z_profile A) (vapor_pressure_profile pmax A C).2
    (saturation_pressure_profile pmax (temperature_profile A C))
  rw [← hz] at hse
  have hmem : (z.start_z, z.end_z) ∈ mergeIntervals (detectIntervals (z_profile A)
      (List.zipWith (fun a b => a - b) (vapor_pressure_profile pmax A C).2
        (saturation_pressure_profile pmax (temperature_profile A C)))) := by
    rw [← hse]
    exact List.mem_map_of_mem _ hzmem
  set diff := List.zipWith (fun a b => a - b) (vapor_pressure_profile pmax A C).2
    (saturation_pressure_profile pmax (temperature_profile A C)) with hdiff
  have hdet : ∀ x ∈ detectIntervals (z_profile A) diff,
      (0 ≤ x.1 ∧ x.1 < x.2 ∧ x.2 ≤ (z_profile A).getLastD 0) ∧ (P x.1 ∨ x.1 = 0) := by
    intro x hx
    exact detectIntervals_inv P (z_accum 0 A.layers) diff (z_profile_chain A hpos)
      hseg x hx
  have key := mergeIntervals_elem
    (fun s => 0 ≤ s ∧ (P s ∨ s = 0))
    (fun e => e ≤ (z_profile A).getLastD 0)
    (fun a b ha hb => max_le ha hb)
    (detectIntervals (z_profile A) diff)
    (by
      intro x hx
      have h := hdet x hx
      exact ⟨⟨h.1.1, h.2⟩, h.1.2.2, h.1.2.1⟩)
    (z.start_z, z.end_z) hmem
  exact ⟨⟨key.1.1, key.2.2, key.2.1⟩, key.1.2⟩

/-! ## Claim C3 -/

/-- Claim C3: the zones produced by `glaser_profile` (after the tolerance
`1e-12` merge) are pairwise disjoint, sorted strictly ascending by start
coordinate, and each satisfies `start_z ≤ end_z`; this holds for every
assembly, climate and saturation provider. -/
theorem zones_disjoint_sorted (pmax : ℚ → ℚ) (A : Assembly) (C : Climate) :
    List.Pairwise (fun u v => u.end_z < v.start_z) (glaser_profile pmax A C).zones ∧
    List.Pairwise (fun u v => u.start_z < v.start_z) (glaser_profile pmax A C).zones ∧
    (∀ z ∈ (glaser_profile pmax A C).zones, z.start_z ≤ z.end_z) := by
  have hz : (glaser_profile pmax A C).zones =
      (glaserCore (z_profile A) (vapor_pressure_profile pmax A C).2
        (saturation_pressure_profile pmax (temperature_profile A C))).2.2 := by
    rw [glaser_profile_fields]
  set zs := (glaser_profile pmax A C).zones with hzs
  have hse := glaserCore_zones_se (z_profile A) (vapor_pressure_profile pmax A C).2
    (saturation_pressure_profile pmax (temperature_profile A C))
  rw [← hz] at hse
  have hm := mergeIntervals_inv (detectIntervals (z_profile A)
    (List.zipWith (fun a b => a - b) (vapor_pressure_profile pmax A C).2
      (saturation_pressure_profile pmax (temperature_profile A C))))
  have hle : ∀ z ∈ zs, z.start_z ≤ z.end_z := by
    intro z hzmem
    have := hm.2 (z.start_z, z.end_z) (by
      rw [← hse]
      exact List.mem_map_of_mem _ hzmem)
    exact this
  have hpw : List.Pairwise (fun u v => u.2 < v.1)
      (zs.map (fun z => (z.start_z, z.end_z))) := by
    rw [hse]
    exact chain_gap_pairwise _ hm.1 hm.2
  have hdisj : List.Pairwise (fun u v => u.end_z < v.start_z) zs :=
    (List.pairwise_map.mp hpw)
  refine ⟨hdisj, ?_, hle⟩
  exact List.Pairwise.imp_of_mem
    (fun {u v} hu _ h => lt_of_le_of_lt (hle u hu) h) hdisj

/-! ## Condensate accumulation lemmas -/

lemma condStep_eq (z_axis : List ℚ) (tk : ℚ) (st : ℚ × (ℕ → ℚ)) (z : Zone) :
    condStep z_axis tk st z =
      (st.1 + zoneTotalContrib tk z,
        fun i => st.2 i + zoneLayerContrib z_axis tk i z) := by
  obtain ⟨t, f⟩ := st
  simp only [condStep, zoneTotalContrib, zoneLayerContrib, zoneRate, zoneOverlap]
  split_ifs with h
  · exact congrArg₂ Prod.mk (by ring) (funext fun i => by ring)
  · refine congrArg₂ Prod.mk rfl (funext fun i => ?_)
    dsimp only
    split_ifs with h2
    · rfl
    · ring

lemma condensate_foldl (z_axis : List ℚ) (tk : ℚ) (zs : List Zone) :
    ∀ (t0 : ℚ) (f0 : ℕ → ℚ),
      (zs.foldl (condStep z_axis tk) (t0, f0)).1 =
        t0 + (zs.map (zoneTotalContrib tk)).sum ∧
      ∀ i, (zs.foldl (condStep z_axis tk) (t0, f0)).2 i =
        f0 i + (zs.map (zoneLayerContrib z_axis tk i)).sum := by
  induction zs with
  | nil => intro t0 f0; simp
  | cons z zs ih =>
      intro t0 f0
      rw [List.foldl_cons, condStep_eq]
      constructor
      · rw [(ih _ _).1, List.map_cons, List.sum_cons]
        ring
      · intro i
        rw [(ih _ _).2 i, List.map_cons, List.sum_cons]
        dsimp only
        ring

lemma condensate_amount_eq (pmax : ℚ → ℚ) (A : Assembly) (C : Climate) (tk : ℚ) :
    (condensate_amount pmax A C tk).Wk_total =
      ((glaser_profile pmax A C).zones.map (zoneTotalContrib tk)).sum ∧
    (condensate_amount pmax A C tk).layers =
      A.layers.enum.map (fun il =>
        { index := il.1,
          Wk_layer := ((glaser_profile pmax A C).zones.map
            (zoneLayerContrib (z_profile A) tk il.1)).sum,
          delta_x_percent := ((glaser_profile pmax A C).zones.map
            (zoneLayerContrib (z_profile A) tk il.1)).sum /
              (max il.2.d 1e-9 * max il.2.rho 1e-9) * 100 : LayerWk }) := by
  have hf := condensate_foldl (z_profile A) tk (glaser_profile pmax A C).zones 0
    (fun _ => 0)
  constructor
  · simp only [condensate_amount]
    rw [hf.1, zero_add]
  · simp only [condensate_amount]
    refine List.map_congr_left fun il _ => ?_
    rw [hf.2 il.1, zero_add]

lemma zoneContrib_of_strict (z_axis : List ℚ) (tk : ℚ) (i : ℕ) (z : Zone)
    (hlt : z.start_z < z.end_z) :
    zoneTotalContrib tk z = zoneRate z * tk ∧
    zoneLayerContrib z_axis tk i z =
      zoneRate z * tk * (zoneOverlap z_axis i z / (z.end_z - z.start_z)) := by
  have hdz : 0 < z.end_z - z.start_z := by linarith
  have hmax : max 0 (z.end_z - z.start_z) = z.end_z - z.start_z := max_eq_right hdz.le
  constructor
  · simp only [zoneTotalContrib, hmax, if_neg (not_le.mpr hdz)]
  · simp only [zoneLayerContrib, hmax, if_neg (not_le.mpr hdz)]
    by_cases hov : 0 < zoneOverlap z_axis i z
    · rw [if_pos ⟨hov, hdz⟩]
    · rw [if_neg (fun hcon => hov hcon.1)]
      have hz : zoneOverlap z_axis i z = 0 :=
        le_antisymm (not_lt.mp hov) (le_max_left _ _)
      rw [hz, zero_div, mul_zero]

lemma clamp_seg (z0 z1 s e : ℚ) (hz : z0 ≤ z1) (hse : s ≤ e) :
    max 0 (min z1 e - max z0 s) = min (max z1 s) e - min (max z0 s) e := by
  simp only [min_def, max_def]
  split_ifs <;> linarith

lemma overlap_telescope_aux (s e : ℚ) (hse : s ≤ e) :
    ∀ (zl : List ℚ), List.Chain' (· ≤ ·) zl →
      ((List.range (zl.length - 1)).map (fun i =>
        max 0 (min (zl.getD (i + 1) 0) e - max (zl.getD i 0) s))).sum =
      min (max (zl.getLastD 0) s) e - min (max (zl.headD 0) s) e := by
  intro zl
  induction zl with
  | nil => intro _; simp
  | cons z0 ztl ih =>
      intro hc
      cases ztl with
      | nil => simp
      | cons z1 zr =>
          have h01 : z0 ≤ z1 := (List.chain'_cons.mp hc).1
          have ihr := ih (List.chain'_cons.mp hc).2
          have hlen : ((z0 :: z1 :: zr : List ℚ).length - 1) = zr.length + 1 := by simp
          rw [hlen, List.range_succ_eq_map, List.map_cons, List.sum_cons, List.map_map]
          have htail : (List.range zr.length).map
              ((fun i => max 0 (min ((z0 :: z1 :: zr : List ℚ).getD (i + 1) 0) e -
                max ((z0 :: z1 :: zr : List ℚ).getD i 0) s)) ∘ Nat.succ) =
              (List.range ((z1 :: zr : List ℚ).length - 1)).map (fun i =>
                max 0 (min ((z1 :: zr : List ℚ).getD (i + 1) 0) e -
                  max ((z1 :: zr : List ℚ).getD i 0) s)) := by
            rw [show ((z1 :: zr : List ℚ).length - 1) = zr.length from by simp]
            refine List.map_congr_left fun i _ => ?_
            simp [List.getD_cons_succ]
          rw [htail, ihr]
          have hhead : max 0 (min ((z0 :: z1 :: zr : List ℚ).getD (0 + 1) 0) e -
              max ((z0 :: z1 :: zr : List ℚ).getD 0 0) s) =
              min (max z1 s) e - min (max z0 s) e := by
            simp only [List.getD_cons_succ, List.getD_cons_zero]
            exact clamp_seg z0 z1 s e h01 hse
          rw [hhead, getLastD_cons_cons]
          simp only [List.headD_cons]
          ring

lemma overlap_sum (A : Assembly) (z : Zone)
    (hmono : List.Chain' (· ≤ ·) (z_profile A))
    (h0 : 0 ≤ z.start_z) (hlt : z.start_z < z.end_z)
    (hhi : z.end_z ≤ (z_profile A).getLastD 0) :
    ((List.range A.layers.length).map (fun i => zoneOverlap (z_profile A) i z)).sum =
      z.end_z - z.start_z := by
  have hlen : (z_profile A).length - 1 = A.layers.length := by
    simp [z_profile, z_accum_length]
  have ht := overlap_telescope_aux z.start_z z.end_z hlt.le (z_profile A) hmono
  rw [hlen] at ht
  have hfun : (fun i => zoneOverlap (z_profile A) i z) = fun i =>
      max 0 (min ((z_profile A).getD (i + 1) 0) z.end_z -
        max ((z_profile A).getD i 0) z.start_z) := rfl
  rw [hfun, ht]
  have hhead : (z_profile A).headD 0 = 0 := rfl
  have hs : z.start_z ≤ (z_profile A).getLastD 0 := by linarith
  rw [hhead]
  rw [max_eq_left hs, min_eq_right hhi, max_eq_right h0, min_eq_left hlt.le]

/-! ## Claim C2 -/

/-- Claim C2: for every assembly, climate, saturation provider and duration,
`condensate_amount` returns `Wk_total = Σ_zones max(0, g_before − g_after)·tk`,
attributes each layer `Wk_rate·tk·(overlap/zone length)` summed over the
zones overlapping it, and reports `Δx% = Wk_layer/(max(d,1e-9)·max(ρ,1e-9))·100`
(the positive-`μ·d` hypothesis is the Layer data-model assumption that makes
the vapor axis strictly increasing). -/
theorem condensate_amount_spec (pmax : ℚ → ℚ) (A : Assembly) (C : Climate) (tk : ℚ)
    (hpos : ∀ l ∈ A.layers, 0 < l.mu * l.d) :
    (condensate_amount pmax A C tk).Wk_total =
      ((glaser_profile pmax A C).zones.map
        (fun z => max 0 (z.g_before - z.g_after) * tk)).sum ∧
    (condensate_amount pmax A C tk).layers.length = A.layers.length ∧
    (∀ i, i < A.layers.length →
      ((condensate_amount pmax A C tk).layers.getD i ⟨0, 0, 0⟩).index = i ∧
      ((condensate_amount pmax A C tk).layers.getD i ⟨0, 0, 0⟩).Wk_layer =
        ((glaser_profile pmax A C).zones.map
          (fun z => max 0 (z.g_before - z.g_after) * tk *
            (zoneOverlap (z_profile A) i z / (z.end_z - z.start_z)))).sum ∧
      ((condensate_amount pmax A C tk).layers.getD i ⟨0, 0, 0⟩).delta_x_percent =
        ((condensate_amount pmax A C tk).layers.getD i ⟨0, 0, 0⟩).Wk_layer /
          (max (A.layers.getD i ⟨"", 0, 0, 0, 0, 0, 0⟩).d 1e-9 *
            max (A.layers.getD i ⟨"", 0, 0, 0, 0, 0, 0⟩).rho 1e-9) * 100) := by
  have hstrict : ∀ z ∈ (glaser_profile pmax A C).zones, z.start_z < z.end_z := by
    intro z hz
    exact (glaser_zone_bounds (fun _ => True) pmax A C hpos
      (chain'_of_forall (fun a b => fun _ _ => trivial) _) z hz).1.2.1
  have heq := condensate_amount_eq pmax A C tk
  have hgetD : ∀ i, i < A.layers.length →
      (condensate_amount pmax A C tk).layers.getD i ⟨0, 0, 0⟩ =
        { index := i,
          Wk_layer := ((glaser_profile pmax A C).zones.map
            (zoneLayerContrib (z_profile A) tk i)).sum,
          delta_x_percent := ((glaser_profile pmax A C).zones.map
            (zoneLayerContrib (z_profile A) tk i)).sum /
              (max (A.layers.getD i ⟨"", 0, 0, 0, 0, 0, 0⟩).d 1e-9 *
                max (A.layers.getD i ⟨"", 0, 0, 0, 0, 0, 0⟩).rho 1e-9) * 100 } := by
    intro i hi
    rw [heq.2]
    rw [List.getD_eq_getElem?_getD, List.getElem?_map, List.getElem?_enum,
      List.getElem?_eq_getElem hi, List.getD_eq_getElem _ _ hi]
    rfl
  refine ⟨?_, ?_, ?_⟩
  · rw [heq.1]
    refine congrArg List.sum (List.map_congr_left fun z hz => ?_)
    exact (zoneContrib_of_strict (z_profile A) tk 0 z (hstrict z hz)).1
  · rw [heq.2]
    simp [z_accum_length]
  · intro i hi
    rw [hgetD i hi]
    refine ⟨rfl, ?_, rfl⟩
    dsimp only
    refine congrArg List.sum (List.map_congr_left fun z hz => ?_)
    exact (zoneContrib_of_strict (z_profile A) tk i z (hstrict z hz)).2

/-- Closed instance discharging the hypotheses of `condensate_amount_spec`. -/
theorem condensate_amount_spec_witness :
    (∀ l ∈ wallTwo.layers, 0 < l.mu * l.d) ∧
    (condensate_amount stepTable wallTwo winterClimate 24).Wk_total =
      ((glaser_profile stepTable wallTwo winterClimate).zones.map
        (fun z => max 0 (z.g_before - z.g_after) * 24)).sum := by
  have hpos : ∀ l ∈ wallTwo.layers, 0 < l.mu * l.d := by
    intro l hl
    simp only [wallTwo, List.mem_cons, List.mem_singleton] at hl
    rcases hl with rfl | rfl | h
    · norm_num [unitLayer]
    · norm_num [unitLayer]
    · simp at h
  exact ⟨hpos,
    (condensate_amount_spec stepTable wallTwo winterClimate 24 hpos).1⟩

/-! ## Claim C10 -/

/-- Claim C10: for a nonnegative duration the per-layer condensate masses are
all nonnegative and sum exactly to `Wk_total` — the per-layer attribution
conserves the condensed mass (positive `μ·d` per layer is again the data-model
assumption). -/
theorem condensate_mass_conserved (pmax : ℚ → ℚ) (A : Assembly) (C : Climate)
    (tk : ℚ) (htk : 0 ≤ tk) (hpos : ∀ l ∈ A.layers, 0 < l.mu * l.d) :
    (∀ lw ∈ (condensate_amount pmax A C tk).layers, 0 ≤ lw.Wk_layer) ∧
    ((condensate_amount pmax A C tk).layers.map (fun lw => lw.Wk_layer)).sum =
      (condensate_amount pmax A C tk).Wk_total := by
  have hbounds : ∀ z ∈ (glaser_profile pmax A C).zones,
      0 ≤ z.start_z ∧ z.start_z < z.end_z ∧
        z.end_z ≤ (z_profile A).getLastD 0 := by
    intro z hz
    exact (glaser_zone_bounds (fun _ => True) pmax A C hpos
      (chain'_of_forall (fun a b => fun _ _ => trivial) _) z hz).1
  have heq := condensate_amount_eq pmax A C tk
  have hmono : List.Chain' (· ≤ ·) (z_profile A) :=
    (z_profile_chain A hpos).imp (fun _ _ h => le_of_lt h)
  have hlayers : (condensate_amount pmax A C tk).layers.map (fun lw => lw.Wk_layer) =
      (List.range A.layers.length).map (fun i =>
        ((glaser_profile pmax A C).zones.map
          (zoneLayerContrib (z_profile A) tk i)).sum) := by
    rw [heq.2, List.map_map]
    have : ((fun lw : LayerWk => lw.Wk_layer) ∘ (fun il : ℕ × Layer =>
        ({ index := il.1,
           Wk_layer := ((glaser_profile pmax A C).zones.map
             (zoneLayerContrib (z_profile A) tk il.1)).sum,
           delta_x_percent := ((glaser_profile pmax A C).zones.map
             (zoneLayerContrib (z_profile A) tk il.1)).sum /
               (max il.2.d 1e-9 * max il.2.rho 1e-9) * 100 } : LayerWk))) =
        (fun il : ℕ × Layer => ((glaser_profile pmax A C).zones.map
          (zoneLayerContrib (z_profile A) tk il.1)).sum) := rfl
    rw [this]
    have hcomp : (fun il : ℕ × Layer => ((glaser_profile pmax A C).zones.map
        (zoneLayerContrib (z_profile A) tk il.1)).sum) =
        (fun i : ℕ => ((glaser_profile pmax A C).zones.map
          (zoneLayerContrib (z_profile A) tk i)).sum) ∘ Prod.fst := rfl
    rw [hcomp, ← List.map_map, List.enum_map_fst]
  constructor
  · intro lw hlw
    rw [heq.2] at hlw
    obtain ⟨il, _, rfl⟩ := List.mem_map.mp hlw
    dsimp only
    refine List.sum_nonneg ?_
    intro x hx
    obtain ⟨z, hzmem, rfl⟩ := List.mem_map.mp hx
    have hb := hbounds z hzmem
    rw [(zoneContrib_of_strict (z_profile A) tk il.1 z hb.2.1).2]
    have h1 : 0 ≤ zoneRate z := le_max_left _ _
    have h2 : 0 ≤ zoneOverlap (z_profile A) il.1 z := le_max_left _ _
    have h3 : 0 < z.end_z - z.start_z := by linarith [hb.2.1]
    positivity
  · rw [hlayers, heq.1]
    rw [sum_swap_list]
    refine congrArg List.sum (List.map_congr_left fun z hz => ?_)
    have hb := hbounds z hz
    have hsum : ((List.range A.layers.length).map
        (fun i => zoneLayerContrib (z_profile A) tk i z)).sum =
        zoneRate z * tk := by
      have hpt : ((List.range A.layers.length).map
          (fun i => zoneLayerContrib (z_profile A) tk i z)).sum =
          ((List.range A.layers.length).map
            (fun i => zoneRate z * tk / (z.end_z - z.start_z) *
              zoneOverlap (z_profile A) i z)).sum := by
        refine congrArg List.sum (List.map_congr_left fun i _ => ?_)
        rw [(zoneContrib_of_strict (z_profile A) tk i z hb.2.1).2]
        ring
      rw [hpt, List.sum_map_mul_left, overlap_sum A z hmono hb.1 hb.2.1 hb.2.2]
      have hne : z.end_z - z.start_z ≠ 0 := by
        have := hb.2.1
        intro hcon
        apply absurd (sub_eq_zero.mp hcon)
        intro h
        linarith
      field_simp
    rw [hsum, (zoneContrib_of_strict (z_profile A) tk 0 z hb.2.1).1]

/-- Closed instance discharging the hypotheses of
`condensate_mass_conserved`. -/
theorem condensate_mass_conserved_witness :
    ((0 : ℚ) ≤ 24 ∧ (∀ l ∈ wallTwo.layers, 0 < l.mu * l.d)) ∧
    ((condensate_amount stepTable wallTwo winterClimate 24).layers.map
      (fun lw => lw.Wk_layer)).sum =
      (condensate_amount stepTable wallTwo winterClimate 24).Wk_total := by
  have hpos : ∀ l ∈ wallTwo.layers, 0 < l.mu * l.d := by
    intro l hl
    simp only [wallTwo, List.mem_cons, List.mem_singleton] at hl
    rcases hl with rfl | rfl | h
    · norm_num [unitLayer]
    · norm_num [unitLayer]
    · simp at h
  exact ⟨⟨by norm_num, hpos⟩,
    (condensate_mass_conserved stepTable wallTwo winterClimate 24 (by norm_num)
      hpos).2⟩

/-! ## Interpolation bracket lemmas -/

lemma mem_le_getLastD (l : List ℚ) (d : ℚ) (hpw : List.Pairwise (· < ·) l) :
    ∀ a ∈ l, a ≤ l.getLastD d := by
  induction l with
  | nil => simp
  | cons b t ih =>
      intro a ha
      rcases List.mem_cons.mp ha with rfl | hat
      · cases t with
        | nil => simp [List.getLastD_cons]
        | cons e t2 =>
            rw [getLastD_cons_cons]
            have hae : a < e := (List.pairwise_cons.mp hpw).1 e (List.mem_cons_self _ _)
            have h2 := ih (List.pairwise_cons.mp hpw).2 e (List.mem_cons_self _ _)
            linarith
      · cases t with
        | nil => simp at hat
        | cons e t2 =>
            rw [getLastD_cons_cons]
            exact ih (List.pairwise_cons.mp hpw).2 a hat

lemma interpScan_bracket (za z0 z1 s0 s1 : ℚ) (v x : List ℚ) :
    ∀ (u w : List ℚ) (zc ac : ℚ),
      u.length = w.length →
      List.Pairwise (· < ·) (zc :: (u ++ z0 :: z1 :: v)) →
      z0 ≤ za → za < z1 → zc < za →
      interpScan za zc ac (u ++ z0 :: z1 :: v) (w ++ s0 :: s1 :: x) =
        s0 + ((za - z0) / (z1 - z0)) * (s1 - s0) := by
  intro u
  induction u with
  | nil =>
      intro w zc ac hlen hpw h0 h1 hc
      have hw : w = [] := List.length_eq_zero.mp hlen.symm
      subst hw
      simp only [List.nil_append]
      have hz01 : z0 < z1 := by
        have := (List.pairwise_cons.mp hpw).2
        exact (List.pairwise_cons.mp this).1 z1 (List.mem_cons_self _ _)
      by_cases hza0 : za ≤ z0
      · have hza0' : za = z0 := le_antisymm hza0 h0
        rw [interpScan, if_pos hza0]
        have hne : ¬(z0 - zc = 0) := by
          intro hcon
          have : zc = z0 := by linarith [sub_eq_zero.mp hcon]
          subst hza0'
          linarith
        rw [if_neg hne]
        subst hza0'
        field_simp
      · push_neg at hza0
        rw [interpScan, if_neg (not_le.mpr hza0), interpScan, if_pos h1.le,
          if_neg (sub_ne_zero.mpr (ne_of_gt hz01))]
  | cons u0 u2 ih =>
      intro w zc ac hlen hpw h0 h1 hc
      cases w with
      | nil => simp at hlen
      | cons w0 w2 =>
          have hp2 : List.Pairwise (· < ·) (u0 :: (u2 ++ z0 :: z1 :: v)) :=
            (List.pairwise_cons.mp hpw).2
          have hu0z0 : u0 < z0 :=
            (List.pairwise_cons.mp hp2).1 z0
              (List.mem_append_right u2 (List.mem_cons_self _ _))
          have hu0za : u0 < za := lt_of_lt_of_le hu0z0 h0
          simp only [List.cons_append]
          rw [interpScan, if_neg (not_le.mpr hu0za)]
          exact ih w2 u0 w0 (by simpa using hlen) hp2 h0 h1 hu0za

lemma interp_bracket (za z0 z1 s0 s1 : ℚ) (u w v x : List ℚ)
    (hlen : u.length = w.length)
    (hpw : List.Pairwise (· < ·) (u ++ z0 :: z1 :: v))
    (h0 : z0 ≤ za) (h1 : za < z1) :
    interp za (u ++ z0 :: z1 :: v) (w ++ s0 :: s1 :: x) =
      s0 + ((za - z0) / (z1 - z0)) * (s1 - s0) := by
  have hz1mem : z1 ∈ u ++ z0 :: z1 :: v :=
    List.mem_append_right u (List.mem_cons_of_mem _ (List.mem_cons_self _ _))
  have hlast : z1 ≤ (u ++ z0 :: z1 :: v).getLastD 0 :=
    mem_le_getLastD _ 0 hpw z1 hz1mem
  cases u with
  | nil =>
      cases w with
      | cons w0 w2 => simp at hlen
      | nil =>
          simp only [List.nil_append] at hpw hlast ⊢
          have hz01 : z0 < z1 := (List.pairwise_cons.mp hpw).1 z1 (List.mem_cons_self _ _)
          by_cases hle : za ≤ z0
          · have hza0 : za = z0 := le_antisymm hle h0
            rw [interp, if_pos hle, hza0]
            simp
          · push_neg at hle
            rw [interp]
            rw [if_neg (not_le.mpr hle), if_neg (by
              rw [getLastD_cons_cons]
              rw [getLastD_cons_cons] at hlast
              push_neg
              linarith)]
            rw [interpScan, if_pos h1.le,
              if_neg (sub_ne_zero.mpr (ne_of_gt hz01))]
  | cons u0 u2 =>
      cases w with
      | nil => simp at hlen
      | cons w0 w2 =>
          have hu0z0 : u0 < z0 :=
            (List.pairwise_cons.mp hpw).1 z0
              (List.mem_append_right u2 (List.mem_cons_self _ _))
          have hu0za : u0 < za := lt_of_lt_of_le hu0z0 h0
          simp only [List.cons_append] at hpw ⊢
          rw [interp]
          rw [if_neg (not_le.mpr hu0za), if_neg (by
            push_neg
            have : z1 ≤ (u0 :: (u2 ++ z0 :: z1 :: v)).getLastD 0 := by
              simpa using hlast
            linarith)]
          refine interpScan_bracket za z0 z1 s0 s1 v x u2 w2 u0 w0
            (by simpa using hlen) ?_ h0 h1 hu0za
          simpa using hpw

lemma cross_line_value (z0 z1 s0 s1 c g : ℚ) (hz : z0 < z1)
    (hD : ¬((c - g * z1 - s1) - (c - g * z0 - s0) = 0)) :
    s0 + ((z0 + interT (c - g * z0 - s0) (c - g * z1 - s1) * (z1 - z0) - z0) /
        (z1 - z0)) * (s1 - s0) =
      c - g * (z0 + interT (c - g * z0 - s0) (c - g * z1 - s1) * (z1 - z0)) := by
  simp only [interT, if_neg hD]
  have hzne : z1 - z0 ≠ 0 := sub_ne_zero.mpr (ne_of_gt hz)
  field_simp
  ring

/-- The crossing points of the detection segments lie on the ambient line:
every entry crossing of `(z_axis, p_lin − p_sat)` has
`interp · z_axis p_sat = c − g·z` when `p_lin = z_axis.map (c − g·)` and the
axis is strictly increasing. -/
lemma segHyp_chain (c g : ℚ) (zaxis psat : List ℚ)
    (hpw : List.Pairwise (· < ·) zaxis) :
    ∀ (zs : List ℚ) (u w ss : List ℚ),
      zaxis = u ++ zs → psat = w ++ ss → u.length = w.length →
      List.Chain' (SegHyp (fun z => interp z zaxis psat = c - g * z))
        (zs.zip (List.zipWith (fun a b => a - b) (zs.map (fun z => c - g * z)) ss)) := by
  intro zs
  induction zs with
  | nil => intro u w ss _ _ _; simp
  | cons z0 zs2 ih =>
      intro u w ss hz hp hlen
      cases ss with
      | nil => simp
      | cons s0 ss2 =>
          cases zs2 with
          | nil => simp
          | cons z1 zs3 =>
              cases ss2 with
              | nil => simp
              | cons s1 ss3 =>
                  simp only [List.map_cons, List.zipWith_cons_cons, List.zip_cons_cons]
                  refine List.chain'_cons.mpr ⟨?_, ?_⟩
                  · intro hd0 hd1
                    dsimp only at hd0 hd1 ⊢
                    have hz01 : z0 < z1 := by
                      have hsub : List.Pairwise (· < ·) (z0 :: z1 :: zs3) :=
                        hpw.sublist (by rw [hz]; exact List.sublist_append_right u _)
                      exact (List.pairwise_cons.mp hsub).1 z1 (List.mem_cons_self _ _)
                    obtain ⟨hb0, hb1⟩ := cross_enter_bounds z0 z1
                      (c - g * z0 - s0) (c - g * z1 - s1) hz01 hd0 hd1
                    rw [hz, hp]
                    rw [interp_bracket _ z0 z1 s0 s1 u w zs3 ss3 hlen
                      (by rw [← hz]; exact hpw) hb0 hb1]
                    exact cross_line_value z0 z1 s0 s1 c g hz01 (by
                      intro hcon
                      have : c - g * z1 - s1 = c - g * z0 - s0 := by linarith
                      rw [this] at hd1
                      linarith)
                  · have hres := ih (u ++ [z0]) (w ++ [s0]) (s1 :: ss3)
                      (by rw [hz]; simp) (by rw [hp]; simp) (by simp [hlen])
                    simpa using hres

/-! ## Reconstruction lemmas -/

lemma getLastD_append_right (xs ys : List ℚ) (d : ℚ) (h : ys ≠ []) :
    (xs ++ ys).getLastD d = ys.getLastD d := by
  induction xs with
  | nil => rfl
  | cons x xs2 ih =>
      rw [List.cons_append, List.getLastD_cons,
        getLastD_irrel (xs2 ++ ys) x d (by simp [h])]
      exact ih

lemma glaserMid_online (isat L : ℚ → ℚ) (ms : List (ℚ × ℚ))
    (hms : ∀ p ∈ ms, isat p.1 = L p.1) :
    ∀ st : MidState, st.pf = st.zf.map L →
      (glaserMid isat ms st).pf = (glaserMid isat ms st).zf.map L := by
  induction ms with
  | nil => intro st h; exact h
  | cons ab rest ih =>
      obtain ⟨a, b⟩ := ab
      intro st h
      show (glaserMid isat rest _).pf = (glaserMid isat rest _).zf.map L
      refine ih (fun p hp => hms p (List.mem_cons_of_mem _ hp)) _ ?_
      dsimp only
      rw [h, hms (a, b) (List.mem_cons_self _ _), List.map_append]
      rfl

lemma glaserMid_zf (isat : ℚ → ℚ) (ms : List (ℚ × ℚ)) :
    ∀ st : MidState, (glaserMid isat ms st).zf = st.zf ++ ms.map (fun p => p.1) := by
  induction ms with
  | nil => intro st; simp [glaserMid]
  | cons ab rest ih =>
      obtain ⟨a, b⟩ := ab
      intro st
      show (glaserMid isat rest _).zf = _
      rw [ih]
      simp

/-- Endgame of the reconstruction: with every merged-zone start on the line
(or at the origin) and clear of the axis end, the assembled polyline is the
ambient line restricted to its vertices. -/
lemma glaserCore_final_tail (ztl p_sat : List ℚ) (c g a0 b0 : ℚ)
    (mrest : List (ℚ × ℚ))
    (hgood : ∀ p ∈ mrest, interp p.1 ((0 : ℚ) :: ztl) p_sat = c - g * p.1)
    (hfar0 : a0 < ((0 : ℚ) :: ztl).getLastD 0 - tol)
    (hfarR : ∀ p ∈ mrest, p.1 < ((0 : ℚ) :: ztl).getLastD 0 - tol)
    (ha0nn : 0 ≤ a0)
    (ha0good : interp a0 ((0 : ℚ) :: ztl) p_sat = c - g * a0 ∨ a0 = 0) :
    let z_axis := (0 : ℚ) :: ztl
    let p_lin := z_axis.map (fun z => c - g * z)
    let isat := fun z => interp z z_axis p_sat
    let z0h := z_axis.headD 0
    let p0h := p_lin.headD 0
    let p_a0 := isat a0
    let g_left := (p0h - p_a0) / max (a0 - z0h) tol
    let st0 : MidState :=
      { zf := if z0h + tol < a0 then [z0h, a0] else [z0h],
        pf := if z0h + tol < a0 then [p0h, p_a0] else [p0h],
        done := [],
        cur := { start_z := a0, end_z := b0, g_before := g_left, g_after := 0 },
        last_b := b0, p_last_b := isat b0 }
    let st := glaserMid isat mrest st0
    let z_total := z_axis.getLastD 0
    let p_e := p_lin.getLastD 0
    let zf2 := if st.zf.getLastD 0 < z_total - tol then st.zf ++ [z_total] else st.zf
    let pf2 := if st.zf.getLastD 0 < z_total - tol then st.pf ++ [p_e] else st.pf
    pf2 = zf2.map (fun z => c - g * z) ∧ zf2 ≠ [] ∧
      zf2.headD 0 = 0 ∧ zf2.getLastD 0 = z_total := by
  intro z_axis p_lin isat z0h p0h p_a0 g_left st0 st z_total p_e zf2 pf2
  have hzt_eq : z_total = ((0 : ℚ) :: ztl).getLastD 0 := rfl
  have hzf : st.zf = st0.zf ++ mrest.map (fun p => p.1) := glaserMid_zf isat mrest st0
  have honline : st.pf = st.zf.map (fun z => c - g * z) := by
    refine glaserMid_online isat (fun z => c - g * z) mrest (fun p hp => hgood p hp) st0 ?_
    show (if z0h + tol < a0 then [p0h, p_a0] else [p0h]) =
      (if z0h + tol < a0 then [z0h, a0] else [z0h]).map (fun z => c - g * z)
    split_ifs with hgt
    · have ha0 : isat a0 = c - g * a0 := by
        rcases ha0good with hg | hz
        · exact hg
        · exfalso
          have hz0h : z0h = 0 := rfl
          rw [hz0h, hz] at hgt
          linarith [tol_pos]
      show [p0h, isat a0] = List.map (fun z => c - g * z) [z0h, a0]
      rw [ha0]
      rfl
    · rfl
  have hall : ∀ y ∈ (0 : ℚ) :: st.zf, y < z_total - tol := by
    intro y hy
    rcases List.mem_cons.mp hy with rfl | hy2
    · rw [hzt_eq]
      linarith
    · rw [hzf] at hy2
      rcases List.mem_append.mp hy2 with h1 | h2
      · have h1b : y ∈ (if z0h + tol < a0 then [z0h, a0] else [z0h]) := h1
        have hy_or : y = z0h ∨ y = a0 := by
          split_ifs at h1b
          · rcases List.mem_cons.mp h1b with h | h
            · exact Or.inl h
            · exact Or.inr (by simpa using h)
          · exact Or.inl (by simpa using h1b)
        have hz0h0 : z0h = (0 : ℚ) := rfl
        rcases hy_or with h | h
        · rw [h, hz0h0, hzt_eq]
          linarith
        · rw [h, hzt_eq]
          exact hfar0
      · obtain ⟨p, hp, rfl⟩ := List.mem_map.mp h2
        rw [hzt_eq]
        exact hfarR p hp
  have hcond : st.zf.getLastD 0 < z_total - tol :=
    hall _ (List.getLastD_mem_cons st.zf 0)
  have hzf2 : zf2 = st.zf ++ [z_total] := by
    show (if st.zf.getLastD 0 < z_total - tol then st.zf ++ [z_total] else st.zf) = _
    rw [if_pos hcond]
  have hpf2 : pf2 = st.pf ++ [p_e] := by
    show (if st.zf.getLastD 0 < z_total - tol then st.pf ++ [p_e] else st.pf) = _
    rw [if_pos hcond]
  have hpe : p_e = c - g * z_total := by
    show p_lin.getLastD 0 = c - g * z_total
    have h1 : p_lin.getLastD 0 = p_lin.getLastD (c - g * 0) := by
      refine getLastD_irrel _ _ _ ?_
      show ((0 : ℚ) :: ztl).map (fun z => c - g * z) ≠ []
      simp
    rw [h1]
    exact List.getLastD_map (fun z => c - g * z) ((0 : ℚ) :: ztl) 0
  refine ⟨?_, ?_, ?_, ?_⟩
  · rw [hpf2, hzf2, honline, hpe, List.map_append]
    rfl
  · rw [hzf2]
    simp
  · rw [hzf2, hzf]
    show (((if z0h + tol < a0 then [z0h, a0] else [z0h]) ++
      mrest.map (fun p => p.1)) ++ [z_total]).headD 0 = 0
    split_ifs <;> rfl
  · rw [hzf2]
    exact List.getLastD_concat _ _ _

/-- Core form of the amended Claim C1: on a strictly increasing axis whose
zone starts all lie more than `tol` below the axis end, the reconstructed
polyline's vertices all lie on the ambient line `c − g·z`, its first vertex is
the axis origin and its last vertex is the axis end. -/
lemma glaserCore_final (ztl p_sat : List ℚ) (c g : ℚ)
    (hpw : List.Pairwise (· < ·) ((0 : ℚ) :: ztl))
    (hfar : ∀ p ∈ mergeIntervals (detectIntervals ((0 : ℚ) :: ztl)
        (List.zipWith (fun a b => a - b)
          (((0 : ℚ) :: ztl).map (fun z => c - g * z)) p_sat)),
        p.1 < ((0 : ℚ) :: ztl).getLastD 0 - tol) :
    (glaserCore ((0 : ℚ) :: ztl) (((0 : ℚ) :: ztl).map (fun z => c - g * z)) p_sat).2.1 =
      (glaserCore ((0 : ℚ) :: ztl) (((0 : ℚ) :: ztl).map (fun z => c - g * z))
        p_sat).1.map (fun z => c - g * z) ∧
    (glaserCore ((0 : ℚ) :: ztl) (((0 : ℚ) :: ztl).map (fun z => c - g * z))
      p_sat).1 ≠ [] ∧
    (glaserCore ((0 : ℚ) :: ztl) (((0 : ℚ) :: ztl).map (fun z => c - g * z))
      p_sat).1.headD 0 = 0 ∧
    (glaserCore ((0 : ℚ) :: ztl) (((0 : ℚ) :: ztl).map (fun z => c - g * z))
      p_sat).1.getLastD 0 = ((0 : ℚ) :: ztl).getLastD 0 := by
  have hchain : List.Chain' (· < ·) ((0 : ℚ) :: ztl) :=
    List.chain'_iff_pairwise.mpr hpw
  have hGoodDet := detectIntervals_inv
    (fun z => interp z ((0 : ℚ) :: ztl) p_sat = c - g * z) ztl
    (List.zipWith (fun a b => a - b) (((0 : ℚ) :: ztl).map (fun z => c - g * z)) p_sat)
    hchain
    (segHyp_chain c g ((0 : ℚ) :: ztl) p_sat hpw ((0 : ℚ) :: ztl) [] [] _
      rfl rfl rfl)
  have hmerged : ∀ p ∈ mergeIntervals (detectIntervals ((0 : ℚ) :: ztl)
      (List.zipWith (fun a b => a - b)
        (((0 : ℚ) :: ztl).map (fun z => c - g * z)) p_sat)),
      ((0 ≤ p.1 ∧ (interp p.1 ((0 : ℚ) :: ztl) p_sat = c - g * p.1 ∨ p.1 = 0)) ∧
        p.2 ≤ ((0 : ℚ) :: ztl).getLastD 0 ∧ p.1 < p.2) := by
    refine mergeIntervals_elem
      (fun s => 0 ≤ s ∧ (interp s ((0 : ℚ) :: ztl) p_sat = c - g * s ∨ s = 0))
      (fun e => e ≤ ((0 : ℚ) :: ztl).getLastD 0)
      (fun a b ha hb => max_le ha hb) _ ?_
    intro y hy
    have h := hGoodDet y hy
    exact ⟨⟨h.1.1, h.2⟩, h.1.2.2, h.1.2.1⟩
  have hchainM := (mergeIntervals_inv (detectIntervals ((0 : ℚ) :: ztl)
      (List.zipWith (fun a b => a - b)
        (((0 : ℚ) :: ztl).map (fun z => c - g * z)) p_sat))).1
  simp only [glaserCore]
  split
  · exact ⟨rfl, by simp, rfl, rfl⟩
  · rename_i a0 b0 mrest heq
    have hmem0 : (a0, b0) ∈ mergeIntervals (detectIntervals ((0 : ℚ) :: ztl)
        (List.zipWith (fun a b => a - b)
          (((0 : ℚ) :: ztl).map (fun z => c - g * z)) p_sat)) := by
      rw [heq]; exact List.mem_cons_self _ _
    have h0 := hmerged (a0, b0) hmem0
    have hpwM := chain_gap_pairwise _ hchainM (fun p hp => (hmerged p hp).2.2.le)
    rw [heq] at hpwM
    have hrest_pos : ∀ p ∈ mrest, 0 < p.1 := by
      intro p hp
      have hb0p : b0 < p.1 := (List.pairwise_cons.mp hpwM).1 p hp
      have := h0.1.1
      have := h0.2.2
      dsimp only at this
      linarith
    have hrest_good : ∀ p ∈ mrest,
        (fun z => interp z ((0 : ℚ) :: ztl) p_sat) p.1 = (fun z => c - g * z) p.1 := by
      intro p hp
      have hm : p ∈ mergeIntervals (detectIntervals ((0 : ℚ) :: ztl)
          (List.zipWith (fun a b => a - b)
            (((0 : ℚ) :: ztl).map (fun z => c - g * z)) p_sat)) := by
        rw [heq]; exact List.mem_cons_of_mem _ hp
      rcases (hmerged p hm).1.2 with hgood | hzero
      · exact hgood
      · exact absurd hzero (ne_of_gt (hrest_pos p hp))
    have hfar0 : a0 < ((0 : ℚ) :: ztl).getLastD 0 - tol := hfar (a0, b0) hmem0
    have hfarR : ∀ p ∈ mrest, p.1 < ((0 : ℚ) :: ztl).getLastD 0 - tol := by
      intro p hp
      refine hfar p ?_
      rw [heq]; exact List.mem_cons_of_mem _ hp
    have ha0nn : 0 ≤ a0 := h0.1.1
    exact glaserCore_final_tail ztl p_sat c g a0 b0 mrest hrest_good hfar0 hfarR ha0nn
      (by
        rcases (hmerged (a0, b0) hmem0).1.2 with hgood | hzero
        · exact Or.inl hgood
        · exact Or.inr hzero)

/-! ## Claim C1 -/

lemma headD_map_q (f : ℚ → ℚ) (l : List ℚ) (hl : l ≠ []) :
    (l.map f).headD 0 = f (l.headD 0) := by
  cases l with
  | nil => exact absurd rfl hl
  | cons a t => rfl

lemma getLastD_map_q (f : ℚ → ℚ) (l : List ℚ) (hl : l ≠ []) :
    (l.map f).getLastD 0 = f (l.getLastD 0) := by
  rw [getLastD_irrel (l.map f) 0 (f 0) (by simpa using hl)]
  exact List.getLastD_map f l 0

/-- Claim C1, amended: for every assembly of positive-`μ·d` layers and climate
whose condensation zones all start more than `tol = 1e-12` below the axis end,
the reconstructed Glaser line `(z_final, p_final)` coincides with the original
linear vapor-pressure line at every one of its vertices — both outside and
inside the condensation zones (inside a zone it follows the chord of the
original line, not the saturation curve) — and its first point equals the
interior ambient pressure `p_i` and its last point the exterior ambient
pressure `p_e`, including when a zone touches either axis endpoint. -/
theorem glaser_final_line (pmax : ℚ → ℚ) (A : Assembly) (C : Climate)
    (hpos : ∀ l ∈ A.layers, 0 < l.mu * l.d) (hne : A.layers ≠ [])
    (hfar : ∀ z ∈ (glaser_profile pmax A C).zones,
      z.start_z < (z_profile A).getLastD 0 - tol) :
    (glaser_profile pmax A C).p_final =
      (glaser_profile pmax A C).z_final.map (lineAt pmax A C) ∧
    (glaser_profile pmax A C).z_final ≠ [] ∧
    (glaser_profile pmax A C).p_final.headD 0 = (partial_pressures pmax C).1 ∧
    (glaser_profile pmax A C).p_final.getLastD 0 = (partial_pressures pmax C).2 := by
  have hzT : 0 < (z_profile A).getLastD 0 := z_total_pos A hpos hne
  have hzTne : (z_profile A).getLastD 0 ≠ 0 := ne_of_gt hzT
  have hplin : (vapor_pressure_profile pmax A C).2 =
      (z_profile A).map (fun z => (partial_pressures pmax C).1 -
        ((partial_pressures pmax C).1 - (partial_pressures pmax C).2) /
          (z_profile A).getLastD 0 * z) := vp_snd pmax A C hzTne
  have hpw : List.Pairwise (· < ·) (z_profile A) :=
    List.chain'_iff_pairwise.mp (z_profile_chain A hpos)
  have hzax : z_profile A = (0 : ℚ) :: z_accum 0 A.layers := rfl
  have hlineAt : lineAt pmax A C = fun z => (partial_pressures pmax C).1 -
      ((partial_pressures pmax C).1 - (partial_pressures pmax C).2) /
        (z_profile A).getLastD 0 * z := rfl
  have hfield := glaser_profile_fields pmax A C
  have hse := glaserCore_zones_se (z_profile A) (vapor_pressure_profile pmax A C).2
    (saturation_pressure_profile pmax (temperature_profile A C))
  rw [hplin] at hse
  have hfarM : ∀ p ∈ mergeIntervals (detectIntervals (z_profile A)
      (List.zipWith (fun a b => a - b)
        ((z_profile A).map (fun z => (partial_pressures pmax C).1 -
          ((partial_pressures pmax C).1 - (partial_pressures pmax C).2) /
            (z_profile A).getLastD 0 * z))
        (saturation_pressure_profile pmax (temperature_profile A C)))),
      p.1 < (z_profile A).getLastD 0 - tol := by
    intro p hp
    rw [← hse] at hp
    obtain ⟨z, hz, rfl⟩ := List.mem_map.mp hp
    refine hfar z ?_
    rw [hfield]
    show z ∈ (glaserCore (z_profile A) (vapor_pressure_profile pmax A C).2
      (saturation_pressure_profile pmax (temperature_profile A C))).2.2
    rw [hplin]
    exact hz
  have hcoreRaw := glaserCore_final (z_accum 0 A.layers)
    (saturation_pressure_profile pmax (temperature_profile A C))
    (partial_pressures pmax C).1
    (((partial_pressures pmax C).1 - (partial_pressures pmax C).2) /
      (z_profile A).getLastD 0)
    hpw hfarM
  have hcore :
      (glaserCore (z_profile A)
        ((z_profile A).map (fun z => (partial_pressures pmax C).1 -
          ((partial_pressures pmax C).1 - (partial_pressures pmax C).2) /
            (z_profile A).getLastD 0 * z))
        (saturation_pressure_profile pmax (temperature_profile A C))).2.1 =
        (glaserCore (z_profile A)
          ((z_profile A).map (fun z => (partial_pressures pmax C).1 -
            ((partial_pressures pmax C).1 - (partial_pressures pmax C).2) /
              (z_profile A).getLastD 0 * z))
          (saturation_pressure_profile pmax (temperature_profile A C))).1.map
          (fun z => (partial_pressures pmax C).1 -
            ((partial_pressures pmax C).1 - (partial_pressures pmax C).2) /
              (z_profile A).getLastD 0 * z) ∧
      (glaserCore (z_profile A)
        ((z_profile A).map (fun z => (partial_pressures pmax C).1 -
          ((partial_pressures pmax C).1 - (partial_pressures pmax C).2) /
            (z_profile A).getLastD 0 * z))
        (saturation_pressure_profile pmax (temperature_profile A C))).1 ≠ [] ∧
      (glaserCore (z_profile A)
        ((z_profile A).map (fun z => (partial_pressures pmax C).1 -
          ((partial_pressures pmax C).1 - (partial_pressures pmax C).2) /
            (z_profile A).getLastD 0 * z))
        (saturation_pressure_profile pmax (temperature_profile A C))).1.headD 0 = 0 ∧
      (glaserCore (z_profile A)
        ((z_profile A).map (fun z => (partial_pressures pmax C).1 -
          ((partial_pressures pmax C).1 - (partial_pressures pmax C).2) /
            (z_profile A).getLastD 0 * z))
        (saturation_pressure_profile pmax (temperature_profile A C))).1.getLastD 0 =
        (z_profile A).getLastD 0 := hcoreRaw
  have hzfin : (glaser_profile pmax A C).z_final =
      (glaserCore (z_profile A)
        ((z_profile A).map (fun z => (partial_pressures pmax C).1 -
          ((partial_pressures pmax C).1 - (partial_pressures pmax C).2) /
            (z_profile A).getLastD 0 * z))
        (saturation_pressure_profile pmax (temperature_profile A C))).1 := by
    rw [hfield]
    show (glaserCore (z_profile A) (vapor_pressure_profile pmax A C).2 _).1 = _
    rw [hplin]
  have hpfin : (glaser_profile pmax A C).p_final =
      (glaserCore (z_profile A)
        ((z_profile A).map (fun z => (partial_pressures pmax C).1 -
          ((partial_pressures pmax C).1 - (partial_pressures pmax C).2) /
            (z_profile A).getLastD 0 * z))
        (saturation_pressure_profile pmax (temperature_profile A C))).2.1 := by
    rw [hfield]
    show (glaserCore (z_profile A) (vapor_pressure_profile pmax A C).2 _).2.1 = _
    rw [hplin]
  refine ⟨?_, ?_, ?_, ?_⟩
  · rw [hpfin, hzfin, hlineAt]
    exact hcore.1
  · rw [hzfin]
    exact hcore.2.1
  · rw [hpfin, hcore.1, ← hzfin]
    rw [headD_map_q _ _ (by rw [hzfin]; exact hcore.2.1)]
    rw [hzfin, hcore.2.2.1]
    ring
  · rw [hpfin, hcore.1, ← hzfin]
    rw [getLastD_map_q _ _ (by rw [hzfin]; exact hcore.2.1)]
    rw [hzfin, hcore.2.2.2]
    rw [div_mul_cancel₀ _ hzTne]
    ring

/-- Claim C1 counterexample: on the concrete two-layer wall, climate and
(table-realisable) saturation provider below, `glaser_profile` detects the
single zone `[1/2, 7/5]` on the vapor axis, yet at the interior point `z = 1`
of that zone the reconstructed line `(z_final, p_final)` has value 50 while
the saturation curve has value 10 — the reconstructed line does not equal the
saturation curve inside the zone (it stays on the original linear line, whose
value at `z = 1` is 50). -/
theorem glaser_final_counterexample :
    (glaser_profile stepTable wallTwo winterClimate).zones.map
      (fun z => (z.start_z, z.end_z)) = [(1/2, 7/5)] ∧
    ((1 : ℚ)/2 ≤ 1 ∧ (1 : ℚ) ≤ 7/5) ∧
    interp 1 (glaser_profile stepTable wallTwo winterClimate).z_final
      (glaser_profile stepTable wallTwo winterClimate).p_final = 50 ∧
    interp 1 (glaser_profile stepTable wallTwo winterClimate).z_axis
      (glaser_profile stepTable wallTwo winterClimate).p_sat = 10 ∧
    (50 : ℚ) ≠ 10 := by
  refine ⟨?_, by norm_num, ?_, ?_, by norm_num⟩ <;>
    norm_num [glaser_profile, glaserCore, vapor_pressure_profile, temperature_profile,
      temp_accum, saturation_pressure_profile, partial_pressures, u_value, z_profile,
      z_accum, detectIntervals, mergeIntervals, buildIntervals, stepI, stepM, swapPair,
      interT, glaserMid, interp, interpScan, tol, DELTA_AIR, wallTwo, unitLayer,
      winterClimate, stepTable]

/-- Closed instance discharging the hypotheses of `glaser_final_line`, on the
same concrete wall as the counterexample (its single zone starts at 1/2, well
below the axis end 2 minus the tolerance). -/
theorem glaser_final_line_witness :
    ((∀ l ∈ wallTwo.layers, 0 < l.mu * l.d) ∧ wallTwo.layers ≠ [] ∧
      (∀ z ∈ (glaser_profile stepTable wallTwo winterClimate).zones,
        z.start_z < (z_profile wallTwo).getLastD 0 - tol)) ∧
    (glaser_profile stepTable wallTwo winterClimate).p_final =
      (glaser_profile stepTable wallTwo winterClimate).z_final.map
        (lineAt stepTable wallTwo winterClimate) := by
  have hpos : ∀ l ∈ wallTwo.layers, 0 < l.mu * l.d := by
    intro l hl
    simp only [wallTwo, List.mem_cons, List.mem_singleton] at hl
    rcases hl with rfl | rfl | h
    · norm_num [unitLayer]
    · norm_num [unitLayer]
    · simp at h
  have hne : wallTwo.layers ≠ [] := by simp [wallTwo]
  have hfar : ∀ z ∈ (glaser_profile stepTable wallTwo winterClimate).zones,
      z.start_z < (z_profile wallTwo).getLastD 0 - tol := by
    norm_num [glaser_profile, glaserCore, vapor_pressure_profile, temperature_profile,
      temp_accum, saturation_pressure_profile, partial_pressures, u_value, z_profile,
      z_accum, detectIntervals, mergeIntervals, buildIntervals, stepI, stepM, swapPair,
      interT, glaserMid, interp, interpScan, tol, DELTA_AIR, wallTwo, unitLayer,
      winterClimate, stepTable]
  exact ⟨⟨hpos, hne, hfar⟩,
    (glaser_final_line stepTable wallTwo winterClimate hpos hne hfar).1⟩

end Teccondense
